import Mathlib

/-!
Verification development for the Lunaria XML-to-Luau transpiler.

The Go sources are embedded shallowly:
* `Node` mirrors the parsed-XML node structure (compiler.go): a tag name
  (`XMLName.Local`, empty for text fragments), an ordered attribute list,
  immediate character data, and the ordered child list.
* The compiler state relevant to the handlers is the integer indent counter;
  handlers are embedded as functions from the indent and the node to a
  `CRes` carrying the generated text, the error (if any), and the indent
  counter after the call, mirroring Go's `(string, error)` returns plus the
  mutation of `Compiler.indent`.
* `compileNode` performs the dispatch of `Compiler.compileNode` with the
  built-in handler registry installed by `registerBuiltins` (commands.go);
  `compileFromTree` is `Compiler.CompileFromString` after the external XML
  parser has produced the root node.
-/

namespace Lunaria

/-- One XML attribute: `xml.Attr` restricted to the `Name.Local` /`Value`
pair that the source ever reads. -/
structure Attr where
  name : String
  value : String
deriving DecidableEq, Repr

/-- Parsed XML node (compiler.go `Node`): `tag` is `XMLName.Local`
(empty for bare text), `attrs` is `Attrs`, `content` is the chardata
`Content`, `nodes` the child list `Nodes`. -/
structure Node where
  tag : String
  attrs : List Attr
  content : String
  nodes : List Node
deriving Repr

/-- Result of one handler / `compileNode` call: the generated text, the
error (`none` for success; Go returns `("", err)` on failure and we keep
both components), and the compiler's indent counter after the call. -/
structure CRes where
  out : String
  err : Option String
  ind : Nat
deriving DecidableEq, Repr

/-- Character class of Go's `unicode.IsSpace`, which `strings.TrimSpace`
trims: ASCII spaces `\t \n \v \f \r ' '` plus the Unicode White_Space
code points. -/
def isGoSpace (c : Char) : Bool :=
  c = ' ' || ('\t' ≤ c && c ≤ '\x0d') ||
  c.toNat = 0x85 || c.toNat = 0xA0 || c.toNat = 0x1680 ||
  (0x2000 ≤ c.toNat && c.toNat ≤ 0x200A) ||
  c.toNat = 0x2028 || c.toNat = 0x2029 || c.toNat = 0x202F ||
  c.toNat = 0x205F || c.toNat = 0x3000

/-- `strings.TrimSpace` on the character list. -/
def trimSpaceList (cs : List Char) : List Char :=
  ((cs.dropWhile isGoSpace).reverse.dropWhile isGoSpace).reverse

/-- `strings.TrimSpace`. -/
def trimSpace (s : String) : String :=
  ⟨trimSpaceList s.data⟩

/-- helpers.go `GetAttr`: first matching attribute value, or `""`. -/
def GetAttr (node : Node) (name : String) : String :=
  match node.attrs.find? (fun a => a.name == name) with
  | some a => a.value
  | none => ""

/-- helpers.go `HasAttr`. -/
def HasAttr (node : Node) (name : String) : Bool :=
  (node.attrs.find? (fun a => a.name == name)).isSome

/-- helpers.go `GetAttrWithDefault`: the attribute value when it is
non-empty, the default otherwise. -/
def GetAttrWithDefault (node : Node) (name defaultValue : String) : String :=
  if GetAttr node name ≠ "" then GetAttr node name else defaultValue

/-- helpers.go `GetBoolAttr`: true iff the value is `true`, `1` or `yes`. -/
def GetBoolAttr (node : Node) (name : String) : Bool :=
  let value := GetAttr node name
  value = "true" || value = "1" || value = "yes"

/-- `strings.Repeat` specialised to repeating a string `n` times. -/
def strRepeat (s : String) : Nat → String
  | 0 => ""
  | k + 1 => s ++ strRepeat s k

/-- compiler.go `Compiler.getIndent`: the indent unit is four spaces per
nesting level. -/
def getIndent (i : Nat) : String :=
  strRepeat "    " i

/-- `strings.ReplaceAll` where the pattern is a single character. -/
def replaceAllChar (target : Char) (repl : List Char) : List Char → List Char
  | [] => []
  | c :: t => (if c = target then repl else [c]) ++ replaceAllChar target repl t

/-- helpers.go `EscapeString`: the five sequential `strings.ReplaceAll`
passes (backslash, quote, newline, tab, carriage return). -/
def EscapeString (s : String) : String :=
  let s1 := replaceAllChar '\\' ['\\', '\\'] s.data
  let s2 := replaceAllChar '\"' ['\\', '\"'] s1
  let s3 := replaceAllChar '\n' ['\\', 'n'] s2
  let s4 := replaceAllChar '\t' ['\\', 't'] s3
  let s5 := replaceAllChar '\r' ['\\', 'r'] s4
  ⟨s5⟩

/-- First character class of helpers.go `IsValidIdentifier`. -/
def isLetterOrUnderscore (c : Char) : Bool :=
  ('a' ≤ c && c ≤ 'z') || ('A' ≤ c && c ≤ 'Z') || c = '_'

/-- Trailing character class of helpers.go `IsValidIdentifier`. -/
def isIdentChar (c : Char) : Bool :=
  isLetterOrUnderscore c || ('0' ≤ c && c ≤ '9')

/-- The Luau keyword list of helpers.go `IsValidIdentifier`. -/
def luauKeywords : List String :=
  ["and", "break", "do", "else", "elseif", "end", "false", "for",
   "function", "if", "in", "local", "nil", "not", "or", "repeat",
   "return", "then", "true", "until", "while"]

/-- helpers.go `IsValidIdentifier`: non-empty, letter/underscore first,
alphanumeric/underscore rest, not a Luau keyword. -/
def IsValidIdentifier (s : String) : Bool :=
  match s.data with
  | [] => false
  | c :: rest =>
    isLetterOrUnderscore c && rest.all isIdentChar && !(luauKeywords.contains s)

/-- `strings.Contains` on character lists. -/
def goContains (pat : List Char) : List Char → Bool
  | [] => pat.isPrefixOf []
  | c :: t => pat.isPrefixOf (c :: t) || goContains pat t

/-- `strings.Contains`. -/
def containsSubstr (s pat : String) : Bool :=
  goContains pat.data s.data

/-- Greedy run of non-`\x7d` characters: the `[^\x7d]+` part of the
interpolation pattern. Returns the run and the remainder. -/
def takeNonBrace : List Char → List Char × List Char
  | [] => ([], [])
  | c :: t =>
    if c = '\x7d' then ([], c :: t)
    else
      let p := takeNonBrace t
      (c :: p.1, p.2)

/-- Match of the regular expression of helpers.go `Interpolate` right after
an opening double brace: a non-empty greedy run of non-`\x7d` characters
followed by a closing double brace. Returns the run (the capture) and the
text after the match. -/
def matchPlaceholder (cs : List Char) : Option (List Char × List Char) :=
  if (takeNonBrace cs).1.isEmpty then none
  else
    match (takeNonBrace cs).2 with
    | '\x7d' :: '\x7d' :: rest2 => some ((takeNonBrace cs).1, rest2)
    | _ => none

theorem takeNonBrace_append (cs : List Char) :
    (takeNonBrace cs).1 ++ (takeNonBrace cs).2 = cs := by
  induction cs with
  | nil => simp [takeNonBrace]
  | cons c t ih =>
    by_cases h : c = '\x7d' <;> simp [takeNonBrace, h, ih]

theorem matchPlaceholder_some {cs run rest2 : List Char}
    (h : matchPlaceholder cs = some (run, rest2)) :
    cs = run ++ '\x7d' :: '\x7d' :: rest2 ∧ run ≠ [] := by
  unfold matchPlaceholder at h
  by_cases he : (takeNonBrace cs).1.isEmpty
  · simp [he] at h
  · simp only [he, if_false, Bool.false_eq_true] at h
    rcases hp : (takeNonBrace cs).2 with _ | ⟨c1, t1⟩
    · rw [hp] at h; simp at h
    · rcases ht : t1 with _ | ⟨c2, t2⟩
      · rw [hp, ht] at h
        by_cases h1 : c1 = '\x7d' <;> simp [h1] at h
      · rw [hp, ht] at h
        by_cases h1 : c1 = '\x7d'
        · by_cases h2 : c2 = '\x7d'
          · subst h1; subst h2
            simp only [Option.some.injEq, Prod.mk.injEq] at h
            obtain ⟨hr, hr2⟩ := h
            constructor
            · have := takeNonBrace_append cs
              rw [hr, hp, ht, hr2] at this
              exact this.symm
            · intro hn
              rw [← hr] at hn
              simp [hn] at he
          · simp [h1, h2] at h
        · simp [h1] at h

theorem matchPlaceholder_length {cs run rest2 : List Char}
    (h : matchPlaceholder cs = some (run, rest2)) :
    rest2.length + 3 ≤ cs.length := by
  obtain ⟨heq, hne⟩ := matchPlaceholder_some h
  subst heq
  have : 1 ≤ run.length := by
    cases run with
    | nil => simp at hne
    | cons a b => simp
  simp [List.length_append]
  omega

/-- The splice a placeholder is replaced with: close the string literal,
concatenate the stringified expression, reopen the literal. -/
def spliceFor (v : String) : String :=
  "\" .. tostring(" ++ v ++ ") .. \""

/-- Scanner of helpers.go `Interpolate`: the regular expression
`\x7b pairs ... \x7d` (two opening braces, a non-empty greedy run of
non-closing-brace characters, two closing braces) is replaced, leftmost
first and non-overlapping, by the concatenation splice; the captured
expression text is trimmed before splicing. All other characters pass
through unchanged. -/
def interpAux : List Char → List Char
  | [] => []
  | [c] => [c]
  | c1 :: c2 :: rest =>
    if c1 = '\x7b' ∧ c2 = '\x7b' then
      match h : matchPlaceholder rest with
      | some p => (spliceFor (trimSpace ⟨p.1⟩)).data ++ interpAux p.2
      | none => c1 :: interpAux (c2 :: rest)
    else c1 :: interpAux (c2 :: rest)
termination_by cs => cs.length
decreasing_by
  · have := matchPlaceholder_length h
    simp; omega
  · simp
  · simp

/-- helpers.go `Interpolate`. -/
def Interpolate (text : String) : String :=
  ⟨interpAux text.data⟩

theorem interpAux_nil : interpAux [] = [] := by
  rw [interpAux]

theorem interpAux_single (c : Char) : interpAux [c] = [c] := by
  rw [interpAux]

theorem interpAux_no_open (c1 c2 : Char) (rest : List Char)
    (h : ¬ (c1 = '\x7b' ∧ c2 = '\x7b')) :
    interpAux (c1 :: c2 :: rest) = c1 :: interpAux (c2 :: rest) := by
  rw [interpAux]
  simp [h]

theorem interpAux_hit (rest : List Char) (p : List Char × List Char)
    (h : matchPlaceholder rest = some p) :
    interpAux ('\x7b' :: '\x7b' :: rest)
      = (spliceFor (trimSpace ⟨p.1⟩)).data ++ interpAux p.2 := by
  rw [interpAux]
  simp only [and_self, if_true, reduceIte]
  split
  · rename_i p2 heq
    rw [h] at heq
    cases heq
    rfl
  · rename_i heq
    rw [h] at heq
    cases heq

theorem interpAux_miss (rest : List Char)
    (h : matchPlaceholder rest = none) :
    interpAux ('\x7b' :: '\x7b' :: rest) = '\x7b' :: interpAux ('\x7b' :: rest) := by
  rw [interpAux]
  simp only [and_self, if_true, reduceIte]
  split
  · rename_i p2 heq
    rw [h] at heq
    cases heq
  · rfl

/-- Digit-string check used by the `strconv` models below. -/
def allDigits (cs : List Char) : Bool :=
  !cs.isEmpty && cs.all Char.isDigit

/-- Numeric value of a digit string, for the `strconv.Atoi` range check. -/
def digitsVal (cs : List Char) : Nat :=
  cs.foldl (fun n c => n * 10 + (c.toNat - 48)) 0

/-- Model of `strconv.Atoi` success (base-10 `ParseInt` into a 64-bit
int): optional sign, one or more ASCII digits, value in the int64 range. -/
def atoiOk (s : String) : Bool :=
  match s.data with
  | '+' :: t => allDigits t && digitsVal t ≤ 9223372036854775807
  | '-' :: t => allDigits t && digitsVal t ≤ 9223372036854775808
  | t => allDigits t && digitsVal t ≤ 9223372036854775807

def splitExp : List Char → List Char × Option (List Char)
  | [] => ([], none)
  | c :: t =>
    if c = 'e' || c = 'E' then ([], some t)
    else
      let p := splitExp t
      (c :: p.1, p.2)

def mantissaOk (cs : List Char) : Bool :=
  let pre := cs.takeWhile Char.isDigit
  let rest := cs.drop pre.length
  match rest with
  | [] => !pre.isEmpty
  | '.' :: frac => (!pre.isEmpty || !frac.isEmpty) && frac.all Char.isDigit
  | _ => false

def expPartOk (cs : List Char) : Bool :=
  match cs with
  | '+' :: t => allDigits t
  | '-' :: t => allDigits t
  | t => allDigits t

def decimalFloatOk (cs : List Char) : Bool :=
  match splitExp cs with
  | (m, none) => mantissaOk m
  | (m, some ex) => mantissaOk m && expPartOk ex

def lowerAscii (cs : List Char) : List Char :=
  cs.map Char.toLower

def specialFloatOk (cs : List Char) : Bool :=
  let l := lowerAscii cs
  l == "inf".data || l == "infinity".data || l == "nan".data ||
  (match l with
   | '+' :: t => t == "inf".data || t == "infinity".data
   | '-' :: t => t == "inf".data || t == "infinity".data
   | _ => false)

/-- Model of `strconv.ParseFloat` success on the forms that occur here:
optional sign and decimal mantissa/exponent, or the case-insensitive
`inf`/`infinity`/`nan` specials. (Go additionally accepts hexadecimal
floats and underscore digit separators; those forms play no role in any
statement below.) -/
def parseFloatOk (s : String) : Bool :=
  match s.data with
  | [] => false
  | '+' :: t => specialFloatOk s.data || decimalFloatOk t
  | '-' :: t => specialFloatOk s.data || decimalFloatOk t
  | _ => specialFloatOk s.data || decimalFloatOk s.data

/-- helpers.go `IsStringLiteral`: after trimming, length at least two and
quote-delimited (double, single, or long-bracket). -/
def IsStringLiteral (s : String) : Bool :=
  let t := trimSpace s
  if t.data.length < 2 then false
  else
    (t.data.head? == some '\"' && t.data.getLast? == some '\"')
    || (t.data.head? == some (Char.ofNat 39) && t.data.getLast? == some (Char.ofNat 39))
    || (t.startsWith "[[" && t.endsWith "]]")

/-- helpers.go `IsNumberLiteral`: after trimming, non-empty and accepted
by `strconv.Atoi` or `strconv.ParseFloat`. -/
def IsNumberLiteral (s : String) : Bool :=
  let t := trimSpace s
  if t = "" then false
  else atoiOk t || parseFloatOk t

/-- helpers.go `WrapInQuotes`: literals and expression-looking strings
pass through, everything else is escaped and double-quoted. -/
def WrapInQuotes (s : String) : String :=
  if IsStringLiteral s || IsNumberLiteral s then s
  else if IsValidIdentifier s || containsSubstr s "(" || containsSubstr s "." then s
  else "\"" ++ EscapeString s ++ "\""

/-- helpers.go `JoinWithCommas`: trim each string, drop the empty ones,
join with a comma and a space. -/
def JoinWithCommas (strs : List String) : String :=
  String.intercalate ", " ((strs.map trimSpace).filter (fun s => s != ""))

/-- helpers.go `IndentLines`: prefix each non-blank line with the indent,
turn blank lines into empty lines. -/
def IndentLines (text indent : String) : String :=
  if text = "" then ""
  else
    String.intercalate "\n"
      ((text.splitOn "\n").map (fun line =>
        if trimSpace line ≠ "" then indent ++ line else ""))

/-- helpers.go `FormatComment`: trim, split into lines, prefix non-blank
lines with the comment marker and a space, blank lines with the bare
marker. -/
def FormatComment (text : String) : String :=
  if text = "" then ""
  else
    String.intercalate "\n"
      (((trimSpace text).splitOn "\n").map (fun line =>
        let l := trimSpace line
        if l ≠ "" then "-- " ++ l else "--"))

/-- commands.go `set` handler. -/
def setHandler (i : Nat) (n : Node) : CRes :=
  let varName := GetAttr n "var"
  if varName = "" then ⟨"", some "set command requires \x27var\x27 attribute", i⟩
  else if ¬ IsValidIdentifier varName then
    ⟨"", some ("invalid variable name: " ++ varName), i⟩
  else
    let isLocal := GetBoolAttr n "local"
    let value := trimSpace n.content
    if value = "" then ⟨"", some "set command requires a value", i⟩
    else
      let pfx := if isLocal then "local " else ""
      ⟨getIndent i ++ pfx ++ varName ++ " = " ++ value, none, i⟩

/-- commands.go `break` handler. -/
def breakHandler (i : Nat) (_n : Node) : CRes :=
  ⟨getIndent i ++ "break", none, i⟩

/-- commands.go `call` handler: content is an optional inline first
argument, `arg` children supply the rest, empty arguments are dropped. -/
def callHandler (i : Nat) (n : Node) : CRes :=
  let name := GetAttr n "name"
  if name = "" then ⟨"", some "call command requires \x27name\x27 attribute", i⟩
  else
    let content := trimSpace n.content
    let args0 := if content ≠ "" then [content] else []
    let args := args0 ++ n.nodes.filterMap (fun child =>
      if child.tag = "arg" then
        let argValue := trimSpace child.content
        if argValue ≠ "" then some argValue else none
      else none)
    ⟨getIndent i ++ name ++ "(" ++ JoinWithCommas args ++ ")", none, i⟩

/-- commands.go `return` handler. -/
def returnHandler (i : Nat) (n : Node) : CRes :=
  let content := trimSpace n.content
  if content = "" then ⟨getIndent i ++ "return", none, i⟩
  else ⟨getIndent i ++ "return " ++ content, none, i⟩

/-- commands.go `arg` handler: consumed by the parent `call`. -/
def argHandler (i : Nat) (_n : Node) : CRes :=
  ⟨"", none, i⟩

/-- One iteration of the entry loop in the commands.go `table` handler:
`entry` children with a non-empty key and non-empty trimmed content emit
one field line (identifier keys bare, other keys bracketed and wrapped),
every other child contributes nothing. -/
def tableEntryLine (ind : Nat) (child : Node) : String :=
  if child.tag = "entry" then
    let key := GetAttr child "key"
    let value := trimSpace child.content
    if key ≠ "" ∧ value ≠ "" then
      if IsValidIdentifier key then
        getIndent ind ++ key ++ " = " ++ value ++ ",\n"
      else
        getIndent ind ++ "[" ++ WrapInQuotes key ++ "] = " ++ value ++ ",\n"
    else ""
  else ""

/-- The entry loop of the commands.go `table` handler, accumulating into
the result string while the indent counter is incremented. -/
def tableEntriesAcc (ind : Nat) (ns : List Node) (acc : String) : String :=
  match ns with
  | [] => acc
  | c :: rest => tableEntriesAcc ind rest (acc ++ tableEntryLine ind c)

/-- commands.go `table` handler. -/
def tableHandler (i : Nat) (n : Node) : CRes :=
  let varName := GetAttr n "var"
  let isLocal := GetBoolAttr n "local"
  let pfx := if isLocal then "local " else ""
  if varName ≠ "" then
    if ¬ IsValidIdentifier varName then
      ⟨"", some ("invalid variable name: " ++ varName), i⟩
    else
      let header := getIndent i ++ pfx ++ varName ++ " = \x7b\n"
      let body := tableEntriesAcc (i + 1) n.nodes header
      ⟨body ++ getIndent i ++ "\x7d", none, i⟩
  else
    let body := tableEntriesAcc (i + 1) n.nodes "\x7b\n"
    ⟨body ++ getIndent i ++ "\x7d", none, i⟩

/-- commands.go `entry` handler: consumed by the parent `table`. -/
def entryHandler (i : Nat) (_n : Node) : CRes :=
  ⟨"", none, i⟩

/-- commands.go `array` handler. -/
def arrayHandler (i : Nat) (n : Node) : CRes :=
  let varName := GetAttr n "var"
  let isLocal := GetBoolAttr n "local"
  let pfx := if isLocal then "local " else ""
  let content := trimSpace n.content
  let values0 := if content ≠ "" then [content] else []
  let values := values0 ++ n.nodes.filterMap (fun child =>
    if child.tag = "item" then
      let itemValue := trimSpace child.content
      if itemValue ≠ "" then some itemValue else none
    else none)
  let arrayContent := JoinWithCommas values
  if varName ≠ "" then
    if ¬ IsValidIdentifier varName then
      ⟨"", some ("invalid variable name: " ++ varName), i⟩
    else ⟨getIndent i ++ pfx ++ varName ++ " = \x7b" ++ arrayContent ++ "\x7d", none, i⟩
  else ⟨"\x7b" ++ arrayContent ++ "\x7d", none, i⟩

/-- commands.go `item` handler: consumed by the parent `array`. -/
def itemHandler (i : Nat) (_n : Node) : CRes :=
  ⟨"", none, i⟩

/-- commands.go `print` handler. -/
def printHandler (i : Nat) (n : Node) : CRes :=
  let content := trimSpace n.content
  if content = "" then ⟨"", some "print command requires content", i⟩
  else if containsSubstr content "\x7b\x7b" then
    ⟨getIndent i ++ "print(\"" ++ Interpolate content ++ "\")", none, i⟩
  else ⟨getIndent i ++ "print(" ++ content ++ ")", none, i⟩

/-- commands.go `warn` handler. -/
def warnHandler (i : Nat) (n : Node) : CRes :=
  let content := trimSpace n.content
  if content = "" then ⟨"", some "warn command requires content", i⟩
  else if containsSubstr content "\x7b\x7b" then
    ⟨getIndent i ++ "warn(\"" ++ Interpolate content ++ "\")", none, i⟩
  else ⟨getIndent i ++ "warn(" ++ content ++ ")", none, i⟩

/-- commands.go `error` handler. -/
def errorHandler (i : Nat) (n : Node) : CRes :=
  let content := trimSpace n.content
  if content = "" then ⟨"", some "error command requires content", i⟩
  else
    let level := GetAttrWithDefault n "level" "1"
    if containsSubstr content "\x7b\x7b" then
      ⟨getIndent i ++ "error(\"" ++ Interpolate content ++ "\", " ++ level ++ ")", none, i⟩
    else ⟨getIndent i ++ "error(" ++ content ++ ", " ++ level ++ ")", none, i⟩

/-- commands.go `raw` handler. -/
def rawHandler (i : Nat) (n : Node) : CRes :=
  let content := trimSpace n.content
  if content = "" then ⟨"", none, i⟩
  else ⟨IndentLines content (getIndent i), none, i⟩

/-- commands.go `comment` handler. -/
def commentHandler (i : Nat) (n : Node) : CRes :=
  let content := trimSpace n.content
  if content = "" then ⟨"", none, i⟩
  else ⟨IndentLines (FormatComment content) (getIndent i), none, i⟩

/-- commands.go `assert` handler. -/
def assertHandler (i : Nat) (n : Node) : CRes :=
  let condition := GetAttr n "test"
  if condition = "" then ⟨"", some "assert command requires \x27test\x27 attribute", i⟩
  else
    let message := trimSpace n.content
    if message ≠ "" then
      ⟨getIndent i ++ "assert(" ++ condition ++ ", " ++ WrapInQuotes message ++ ")", none, i⟩
    else ⟨getIndent i ++ "assert(" ++ condition ++ ")", none, i⟩

/-- commands.go `typeof` handler. -/
def typeofHandler (i : Nat) (n : Node) : CRes :=
  let varName := GetAttr n "var"
  let value := trimSpace n.content
  if varName = "" ∧ value = "" then
    ⟨"", some "typeof command requires either \x27var\x27 attribute or content", i⟩
  else if varName ≠ "" then
    if ¬ IsValidIdentifier varName then
      ⟨"", some ("invalid variable name: " ++ varName), i⟩
    else if value = "" then
      ⟨"", some "typeof command with \x27var\x27 requires content", i⟩
    else
      let pfx := if GetBoolAttr n "local" then "local " else ""
      ⟨getIndent i ++ pfx ++ varName ++ " = typeof(" ++ value ++ ")", none, i⟩
  else ⟨"typeof(" ++ value ++ ")", none, i⟩

theorem sizeOf_nodes_lt (n : Node) : sizeOf n.nodes < sizeOf n := by
  cases n with
  | mk t a c ns => simp

mutual

/-- compiler.go `Compiler.compileNode` with the built-in registry:
whitespace-only text fragments produce nothing, other text fragments are
a hard error, registered tags dispatch to their handler, unregistered
tags fail naming the tag. -/
def compileNode (i : Nat) (n : Node) : CRes :=
  if n.tag = "" then
    let content := trimSpace n.content
    if content = "" then ⟨"", none, i⟩
    else ⟨"", some ("unexpected text content: " ++ content), i⟩
  else if n.tag = "set" then setHandler i n
  else if n.tag = "if" then ifHandler i n
  else if n.tag = "elseif" then elseifHandler i n
  else if n.tag = "else" then elseHandler i n
  else if n.tag = "for" then forHandler i n
  else if n.tag = "while" then whileHandler i n
  else if n.tag = "repeat" then repeatHandler i n
  else if n.tag = "break" then breakHandler i n
  else if n.tag = "function" then functionHandler i n
  else if n.tag = "call" then callHandler i n
  else if n.tag = "return" then returnHandler i n
  else if n.tag = "arg" then argHandler i n
  else if n.tag = "table" then tableHandler i n
  else if n.tag = "entry" then entryHandler i n
  else if n.tag = "array" then arrayHandler i n
  else if n.tag = "item" then itemHandler i n
  else if n.tag = "print" then printHandler i n
  else if n.tag = "warn" then warnHandler i n
  else if n.tag = "error" then errorHandler i n
  else if n.tag = "raw" then rawHandler i n
  else if n.tag = "comment" then commentHandler i n
  else if n.tag = "assert" then assertHandler i n
  else if n.tag = "typeof" then typeofHandler i n
  else ⟨"", some ("unknown tag: " ++ n.tag), i⟩
termination_by (sizeOf n, 1)

/-- commands.go `if` handler: header, children at one deeper indent,
terminator; a child error is returned as-is (without the decrement). -/
def ifHandler (i : Nat) (n : Node) : CRes :=
  let test := GetAttr n "test"
  if test = "" then ⟨"", some "if command requires \x27test\x27 attribute", i⟩
  else
    let header := getIndent i ++ "if " ++ test ++ " then\n"
    let r := compileList (i + 1) n.nodes header
    match r.err with
    | some e => ⟨"", some e, r.ind⟩
    | none => ⟨r.out ++ getIndent (r.ind - 1) ++ "end", none, r.ind - 1⟩
termination_by (sizeOf n, 0)
decreasing_by exact Prod.Lex.left _ _ (sizeOf_nodes_lt n)

/-- commands.go `elseif` handler: header and body, no terminator. -/
def elseifHandler (i : Nat) (n : Node) : CRes :=
  let test := GetAttr n "test"
  if test = "" then ⟨"", some "elseif command requires \x27test\x27 attribute", i⟩
  else
    let header := getIndent i ++ "elseif " ++ test ++ " then\n"
    let r := compileList (i + 1) n.nodes header
    match r.err with
    | some e => ⟨"", some e, r.ind⟩
    | none => ⟨r.out, none, r.ind - 1⟩
termination_by (sizeOf n, 0)
decreasing_by exact Prod.Lex.left _ _ (sizeOf_nodes_lt n)

/-- commands.go `else` handler: header and body, no terminator. -/
def elseHandler (i : Nat) (n : Node) : CRes :=
  let header := getIndent i ++ "else\n"
  let r := compileList (i + 1) n.nodes header
  match r.err with
  | some e => ⟨"", some e, r.ind⟩
  | none => ⟨r.out, none, r.ind - 1⟩
termination_by (sizeOf n, 0)
decreasing_by exact Prod.Lex.left _ _ (sizeOf_nodes_lt n)

/-- commands.go `for` handler: numeric loop when both `from` and `to` are
non-empty (with `step` when it differs from `1`), otherwise the iterator
form via the `in` attribute. -/
def forHandler (i : Nat) (n : Node) : CRes :=
  let varName := GetAttr n "var"
  let fromV := GetAttr n "from"
  let toV := GetAttr n "to"
  let stepV := GetAttrWithDefault n "step" "1"
  if varName = "" then ⟨"", some "for command requires \x27var\x27 attribute", i⟩
  else if ¬ IsValidIdentifier varName then
    ⟨"", some ("invalid variable name: " ++ varName), i⟩
  else
    let headerRes : Option String :=
      if fromV ≠ "" ∧ toV ≠ "" then
        if stepV ≠ "1" then
          some (getIndent i ++ "for " ++ varName ++ " = " ++ fromV ++ ", " ++ toV ++ ", " ++ stepV ++ " do\n")
        else
          some (getIndent i ++ "for " ++ varName ++ " = " ++ fromV ++ ", " ++ toV ++ " do\n")
      else
        let iterator := GetAttr n "in"
        if iterator = "" then none
        else some (getIndent i ++ "for " ++ varName ++ " in " ++ iterator ++ " do\n")
    match headerRes with
    | none => ⟨"", some "for command requires either \x27from\x27/\x27to\x27 or \x27in\x27 attributes", i⟩
    | some header =>
      let r := compileList (i + 1) n.nodes header
      match r.err with
      | some e => ⟨"", some e, r.ind⟩
      | none => ⟨r.out ++ getIndent (r.ind - 1) ++ "end", none, r.ind - 1⟩
termination_by (sizeOf n, 0)
decreasing_by exact Prod.Lex.left _ _ (sizeOf_nodes_lt n)

/-- commands.go `while` handler. -/
def whileHandler (i : Nat) (n : Node) : CRes :=
  let test := GetAttr n "test"
  if test = "" then ⟨"", some "while command requires \x27test\x27 attribute", i⟩
  else
    let header := getIndent i ++ "while " ++ test ++ " do\n"
    let r := compileList (i + 1) n.nodes header
    match r.err with
    | some e => ⟨"", some e, r.ind⟩
    | none => ⟨r.out ++ getIndent (r.ind - 1) ++ "end", none, r.ind - 1⟩
termination_by (sizeOf n, 0)
decreasing_by exact Prod.Lex.left _ _ (sizeOf_nodes_lt n)

/-- commands.go `repeat` handler: `repeat` header, body, `until`
post-condition terminator. -/
def repeatHandler (i : Nat) (n : Node) : CRes :=
  let untilV := GetAttr n "until"
  if untilV = "" then ⟨"", some "repeat command requires \x27until\x27 attribute", i⟩
  else
    let header := getIndent i ++ "repeat\n"
    let r := compileList (i + 1) n.nodes header
    match r.err with
    | some e => ⟨"", some e, r.ind⟩
    | none => ⟨r.out ++ getIndent (r.ind - 1) ++ "until " ++ untilV, none, r.ind - 1⟩
termination_by (sizeOf n, 0)
decreasing_by exact Prod.Lex.left _ _ (sizeOf_nodes_lt n)

/-- commands.go `function` handler. -/
def functionHandler (i : Nat) (n : Node) : CRes :=
  let name := GetAttr n "name"
  let params := GetAttrWithDefault n "params" ""
  let isLocal := GetBoolAttr n "local"
  if name = "" then ⟨"", some "function command requires \x27name\x27 attribute", i⟩
  else if ¬ IsValidIdentifier name then
    ⟨"", some ("invalid function name: " ++ name), i⟩
  else
    let pfx := if isLocal then "local " else ""
    let header := getIndent i ++ pfx ++ "function " ++ name ++ "(" ++ params ++ ")\n"
    let r := compileList (i + 1) n.nodes header
    match r.err with
    | some e => ⟨"", some e, r.ind⟩
    | none => ⟨r.out ++ getIndent (r.ind - 1) ++ "end", none, r.ind - 1⟩
termination_by (sizeOf n, 0)
decreasing_by exact Prod.Lex.left _ _ (sizeOf_nodes_lt n)

/-- The child-compilation loop shared by the block handlers: compile each
child in order with the threaded compiler state, abort on the first error
returning `("", err)` as the Go loops do, and append each non-empty child
output plus a newline to the accumulated result. -/
def compileList (i : Nat) (ns : List Node) (acc : String) : CRes :=
  match ns with
  | [] => ⟨acc, none, i⟩
  | c :: rest =>
    let r := compileNode i c
    match r.err with
    | some e => ⟨"", some e, r.ind⟩
    | none => compileList r.ind rest (if r.out ≠ "" then acc ++ r.out ++ "\n" else acc)
termination_by (sizeOf ns, 0)

end

/-- The child loop of compiler.go `CompileFromString` for a `script`
root: compile each child in document order, abort on the first error,
collect the non-empty outputs. -/
def scriptChildren (i : Nat) (ns : List Node) (results : List String) :
    List String × Option String × Nat :=
  match ns with
  | [] => (results, none, i)
  | c :: rest =>
    let r := compileNode i c
    match r.err with
    | some e => ([], some e, r.ind)
    | none => scriptChildren r.ind rest (if r.out ≠ "" then results ++ [r.out] else results)

/-- compiler.go `Compiler.CompileFromString` after the external XML
parser has produced the root node: a `script` root compiles each child
independently and joins the non-empty results with newlines, any other
root is compiled as a single statement. -/
def compileFromTree (i : Nat) (root : Node) : CRes :=
  if root.tag = "script" then
    match scriptChildren i root.nodes [] with
    | (_, some e, i2) => ⟨"", some e, i2⟩
    | (results, none, i2) => ⟨String.intercalate "\n" results, none, i2⟩
  else compileNode i root

/-- The contents of the built-in handler registry installed by
commands.go `registerBuiltins`, as a tag-to-handler association list. -/
def builtinHandlers : List (String × (Nat → Node → CRes)) :=
  [("set", setHandler), ("if", ifHandler), ("elseif", elseifHandler),
   ("else", elseHandler), ("for", forHandler), ("while", whileHandler),
   ("repeat", repeatHandler), ("break", breakHandler),
   ("function", functionHandler), ("call", callHandler),
   ("return", returnHandler), ("arg", argHandler), ("table", tableHandler),
   ("entry", entryHandler), ("array", arrayHandler), ("item", itemHandler),
   ("print", printHandler), ("warn", warnHandler), ("error", errorHandler),
   ("raw", rawHandler), ("comment", commentHandler),
   ("assert", assertHandler), ("typeof", typeofHandler)]

/-- Lookup in the built-in registry (the `c.handlers[tag]` map access). -/
def lookupHandler (tag : String) : Option (Nat → Node → CRes) :=
  if tag = "set" then some setHandler
  else if tag = "if" then some ifHandler
  else if tag = "elseif" then some elseifHandler
  else if tag = "else" then some elseHandler
  else if tag = "for" then some forHandler
  else if tag = "while" then some whileHandler
  else if tag = "repeat" then some repeatHandler
  else if tag = "break" then some breakHandler
  else if tag = "function" then some functionHandler
  else if tag = "call" then some callHandler
  else if tag = "return" then some returnHandler
  else if tag = "arg" then some argHandler
  else if tag = "table" then some tableHandler
  else if tag = "entry" then some entryHandler
  else if tag = "array" then some arrayHandler
  else if tag = "item" then some itemHandler
  else if tag = "print" then some printHandler
  else if tag = "warn" then some warnHandler
  else if tag = "error" then some errorHandler
  else if tag = "raw" then some rawHandler
  else if tag = "comment" then some commentHandler
  else if tag = "assert" then some assertHandler
  else if tag = "typeof" then some typeofHandler
  else none

/-- Handlers that neither recurse nor touch the indent counter: the
result's indent equals the argument, errors come with empty output, and
the error is independent of the indent. -/
def PureHandler (h : Nat → Node → CRes) : Prop :=
  ∀ i j n, (h i n).ind = i ∧ ((h i n).err ≠ none → (h i n).out = "") ∧ (h i n).err = (h j n).err

theorem setHandler_pure : PureHandler setHandler := by
  intro i j n
  simp only [setHandler]
  split_ifs <;> simp_all

theorem breakHandler_pure : PureHandler breakHandler := by
  intro i j n
  simp [breakHandler]

theorem callHandler_pure : PureHandler callHandler := by
  intro i j n
  simp only [callHandler]
  split_ifs <;> simp_all

theorem returnHandler_pure : PureHandler returnHandler := by
  intro i j n
  simp only [returnHandler]
  split_ifs <;> simp_all

theorem argHandler_pure : PureHandler argHandler := by
  intro i j n
  simp [argHandler]

theorem tableHandler_pure : PureHandler tableHandler := by
  intro i j n
  simp only [tableHandler]
  split_ifs <;> simp_all

theorem entryHandler_pure : PureHandler entryHandler := by
  intro i j n
  simp [entryHandler]

theorem arrayHandler_pure : PureHandler arrayHandler := by
  intro i j n
  simp only [arrayHandler]
  split_ifs <;> simp_all

theorem itemHandler_pure : PureHandler itemHandler := by
  intro i j n
  simp [itemHandler]

theorem printHandler_pure : PureHandler printHandler := by
  intro i j n
  simp only [printHandler]
  split_ifs <;> simp_all

theorem warnHandler_pure : PureHandler warnHandler := by
  intro i j n
  simp only [warnHandler]
  split_ifs <;> simp_all

theorem errorHandler_pure : PureHandler errorHandler := by
  intro i j n
  simp only [errorHandler]
  split_ifs <;> simp_all

theorem rawHandler_pure : PureHandler rawHandler := by
  intro i j n
  simp only [rawHandler]
  split_ifs <;> simp_all

theorem commentHandler_pure : PureHandler commentHandler := by
  intro i j n
  simp only [commentHandler]
  split_ifs <;> simp_all

theorem assertHandler_pure : PureHandler assertHandler := by
  intro i j n
  simp only [assertHandler]
  split_ifs <;> simp_all

theorem typeofHandler_pure : PureHandler typeofHandler := by
  intro i j n
  simp only [typeofHandler]
  split_ifs <;> simp_all

/-- Pairwise invariant between the runs of one compilation step at two
starting indents `i` and `j`: equal errors, equal indent delta, success
restores the indent, errors carry empty output. -/
abbrev GoodPair (i j : Nat) (vi vj : CRes) : Prop :=
  vi.err = vj.err
  ∧ vi.ind + j = vj.ind + i
  ∧ (vi.err = none → vi.ind = i)
  ∧ (vi.err ≠ none → vi.out = "")

/-- The inductive invariant for the child-compilation loop, for all pairs
of starting indents and accumulators. -/
def ListGood (ns : List Node) : Prop :=
  ∀ i j a b, GoodPair i j (compileList i ns a) (compileList j ns b)

/-- The inductive invariant for `compileNode`, for all pairs of starting
indents. -/
def NodeGood (n : Node) : Prop :=
  ∀ i j, GoodPair i j (compileNode i n) (compileNode j n)

/-- Goodness of the common tail of the block handlers that emit a single
footer string after the children. -/
theorem blockTailGood (ns : List Node) (hl : ListGood ns) (i j : Nat) (h1 h2 s : String) :
    GoodPair i j
      (match (compileList (i + 1) ns h1).err with
       | some e => (⟨"", some e, (compileList (i + 1) ns h1).ind⟩ : CRes)
       | none => ⟨(compileList (i + 1) ns h1).out ++ getIndent ((compileList (i + 1) ns h1).ind - 1) ++ s,
           none, (compileList (i + 1) ns h1).ind - 1⟩)
      (match (compileList (j + 1) ns h2).err with
       | some e => (⟨"", some e, (compileList (j + 1) ns h2).ind⟩ : CRes)
       | none => ⟨(compileList (j + 1) ns h2).out ++ getIndent ((compileList (j + 1) ns h2).ind - 1) ++ s,
           none, (compileList (j + 1) ns h2).ind - 1⟩) := by
  obtain ⟨e1, e2, e3, _⟩ := hl (i + 1) (j + 1) h1 h2
  obtain ⟨_, _, f3, _⟩ := hl (j + 1) (i + 1) h2 h1
  rcases herr : (compileList (i + 1) ns h1).err with _ | e
  · have herr2 : (compileList (j + 1) ns h2).err = none := by rw [← e1, herr]
    have hri := e3 herr
    have hrj := f3 herr2
    simp only [herr, herr2]
    refine ⟨by simp, by simp; omega, fun _ => by simp; omega, by simp⟩
  · have herr2 : (compileList (j + 1) ns h2).err = some e := by rw [← e1, herr]
    simp only [herr, herr2]
    refine ⟨by simp, by simp; omega, by simp, fun _ => by simp⟩

/-- Goodness of the `repeat` tail, whose footer is split between the
`until ` keyword and the condition text. -/
theorem blockTailGoodTwo (ns : List Node) (hl : ListGood ns) (i j : Nat) (h1 h2 s1 s2 : String) :
    GoodPair i j
      (match (compileList (i + 1) ns h1).err with
       | some e => (⟨"", some e, (compileList (i + 1) ns h1).ind⟩ : CRes)
       | none => ⟨(compileList (i + 1) ns h1).out ++ getIndent ((compileList (i + 1) ns h1).ind - 1) ++ s1 ++ s2,
           none, (compileList (i + 1) ns h1).ind - 1⟩)
      (match (compileList (j + 1) ns h2).err with
       | some e => (⟨"", some e, (compileList (j + 1) ns h2).ind⟩ : CRes)
       | none => ⟨(compileList (j + 1) ns h2).out ++ getIndent ((compileList (j + 1) ns h2).ind - 1) ++ s1 ++ s2,
           none, (compileList (j + 1) ns h2).ind - 1⟩) := by
  obtain ⟨e1, e2, e3, _⟩ := hl (i + 1) (j + 1) h1 h2
  obtain ⟨_, _, f3, _⟩ := hl (j + 1) (i + 1) h2 h1
  rcases herr : (compileList (i + 1) ns h1).err with _ | e
  · have herr2 : (compileList (j + 1) ns h2).err = none := by rw [← e1, herr]
    have hri := e3 herr
    have hrj := f3 herr2
    simp only [herr, herr2]
    refine ⟨by simp, by simp; omega, fun _ => by simp; omega, by simp⟩
  · have herr2 : (compileList (j + 1) ns h2).err = some e := by rw [← e1, herr]
    simp only [herr, herr2]
    refine ⟨by simp, by simp; omega, by simp, fun _ => by simp⟩

/-- Goodness of the `elseif`/`else` tail, which emits no footer but still
decrements. -/
theorem blockTailGoodBare (ns : List Node) (hl : ListGood ns) (i j : Nat) (h1 h2 : String) :
    GoodPair i j
      (match (compileList (i + 1) ns h1).err with
       | some e => (⟨"", some e, (compileList (i + 1) ns h1).ind⟩ : CRes)
       | none => ⟨(compileList (i + 1) ns h1).out, none, (compileList (i + 1) ns h1).ind - 1⟩)
      (match (compileList (j + 1) ns h2).err with
       | some e => (⟨"", some e, (compileList (j + 1) ns h2).ind⟩ : CRes)
       | none => ⟨(compileList (j + 1) ns h2).out, none, (compileList (j + 1) ns h2).ind - 1⟩) := by
  obtain ⟨e1, e2, e3, _⟩ := hl (i + 1) (j + 1) h1 h2
  obtain ⟨_, _, f3, _⟩ := hl (j + 1) (i + 1) h2 h1
  rcases herr : (compileList (i + 1) ns h1).err with _ | e
  · have herr2 : (compileList (j + 1) ns h2).err = none := by rw [← e1, herr]
    have hri := e3 herr
    have hrj := f3 herr2
    simp only [herr, herr2]
    refine ⟨by simp, by simp; omega, fun _ => by simp; omega, by simp⟩
  · have herr2 : (compileList (j + 1) ns h2).err = some e := by rw [← e1, herr]
    simp only [herr, herr2]
    refine ⟨by simp, by simp; omega, by simp, fun _ => by simp⟩

theorem ifHandler_good (n : Node) (hl : ListGood n.nodes) (i j : Nat) :
    GoodPair i j (ifHandler i n) (ifHandler j n) := by
  simp only [ifHandler]
  split_ifs
  <;> first
    | exact blockTailGood n.nodes hl i j _ _ _
    | refine ⟨by simp, by simp [Nat.add_comm], by simp, by simp⟩

theorem elseifHandler_good (n : Node) (hl : ListGood n.nodes) (i j : Nat) :
    GoodPair i j (elseifHandler i n) (elseifHandler j n) := by
  simp only [elseifHandler]
  split_ifs
  <;> first
    | exact blockTailGoodBare n.nodes hl i j _ _
    | refine ⟨by simp, by simp [Nat.add_comm], by simp, by simp⟩

theorem elseHandler_good (n : Node) (hl : ListGood n.nodes) (i j : Nat) :
    GoodPair i j (elseHandler i n) (elseHandler j n) := by
  simp only [elseHandler]
  exact blockTailGoodBare n.nodes hl i j _ _

theorem forHandler_good (n : Node) (hl : ListGood n.nodes) (i j : Nat) :
    GoodPair i j (forHandler i n) (forHandler j n) := by
  simp only [forHandler]
  split_ifs
  <;> first
    | exact blockTailGood n.nodes hl i j _ _ _
    | refine ⟨by simp, by simp [Nat.add_comm], by simp, by simp⟩

theorem whileHandler_good (n : Node) (hl : ListGood n.nodes) (i j : Nat) :
    GoodPair i j (whileHandler i n) (whileHandler j n) := by
  simp only [whileHandler]
  split_ifs
  <;> first
    | exact blockTailGood n.nodes hl i j _ _ _
    | refine ⟨by simp, by simp [Nat.add_comm], by simp, by simp⟩

theorem repeatHandler_good (n : Node) (hl : ListGood n.nodes) (i j : Nat) :
    GoodPair i j (repeatHandler i n) (repeatHandler j n) := by
  simp only [repeatHandler]
  split_ifs
  <;> first
    | exact blockTailGoodTwo n.nodes hl i j _ _ _ _
    | refine ⟨by simp, by simp [Nat.add_comm], by simp, by simp⟩

theorem functionHandler_good (n : Node) (hl : ListGood n.nodes) (i j : Nat) :
    GoodPair i j (functionHandler i n) (functionHandler j n) := by
  simp only [functionHandler]
  split_ifs
  <;> first
    | exact blockTailGood n.nodes hl i j _ _ _
    | refine ⟨by simp, by simp [Nat.add_comm], by simp, by simp⟩

theorem pure_goodPair {h : Nat → Node → CRes} (hp : PureHandler h) (i j : Nat) (n : Node) :
    GoodPair i j (h i n) (h j n) := by
  obtain ⟨hi1, hi2, hi3⟩ := hp i j n
  obtain ⟨hj1, _, _⟩ := hp j i n
  exact ⟨hi3, by omega, fun _ => hi1, hi2⟩

set_option maxHeartbeats 1000000 in
/-- Joint structural invariant of `compileNode` and `compileList`, proved
by strong induction on the node size: errors and indent deltas are
independent of the starting indent and accumulator, success restores the
indent, and failures produce empty output. -/
theorem compile_good_aux (k : Nat) :
    (∀ n : Node, sizeOf n ≤ k → NodeGood n)
    ∧ (∀ ns : List Node, sizeOf ns ≤ k → ListGood ns) := by
  induction k using Nat.strong_induction_on with
  | _ k ih =>
    constructor
    · intro n hk i j
      have hnodes : ListGood n.nodes :=
        (ih (sizeOf n.nodes) (lt_of_lt_of_le (sizeOf_nodes_lt n) hk)).2 n.nodes le_rfl
      unfold compileNode
      by_cases h0 : n.tag = ""
      · rw [if_pos h0, if_pos h0]
        by_cases h0b : trimSpace n.content = ""
        · rw [if_pos h0b, if_pos h0b]
          refine ⟨by simp, by simp [Nat.add_comm], by simp, by simp⟩
        · rw [if_neg h0b, if_neg h0b]
          refine ⟨by simp, by simp [Nat.add_comm], by simp, by simp⟩
      · rw [if_neg h0, if_neg h0]
        by_cases h1 : n.tag = "set"
        · rw [if_pos h1, if_pos h1]
          exact pure_goodPair setHandler_pure i j n
        · rw [if_neg h1, if_neg h1]
          by_cases h2 : n.tag = "if"
          · rw [if_pos h2, if_pos h2]
            exact ifHandler_good n hnodes i j
          · rw [if_neg h2, if_neg h2]
            by_cases h3 : n.tag = "elseif"
            · rw [if_pos h3, if_pos h3]
              exact elseifHandler_good n hnodes i j
            · rw [if_neg h3, if_neg h3]
              by_cases h4 : n.tag = "else"
              · rw [if_pos h4, if_pos h4]
                exact elseHandler_good n hnodes i j
              · rw [if_neg h4, if_neg h4]
                by_cases h5 : n.tag = "for"
                · rw [if_pos h5, if_pos h5]
                  exact forHandler_good n hnodes i j
                · rw [if_neg h5, if_neg h5]
                  by_cases h6 : n.tag = "while"
                  · rw [if_pos h6, if_pos h6]
                    exact whileHandler_good n hnodes i j
                  · rw [if_neg h6, if_neg h6]
                    by_cases h7 : n.tag = "repeat"
                    · rw [if_pos h7, if_pos h7]
                      exact repeatHandler_good n hnodes i j
                    · rw [if_neg h7, if_neg h7]
                      by_cases h8 : n.tag = "break"
                      · rw [if_pos h8, if_pos h8]
                        exact pure_goodPair breakHandler_pure i j n
                      · rw [if_neg h8, if_neg h8]
                        by_cases h9 : n.tag = "function"
                        · rw [if_pos h9, if_pos h9]
                          exact functionHandler_good n hnodes i j
                        · rw [if_neg h9, if_neg h9]
                          by_cases h10 : n.tag = "call"
                          · rw [if_pos h10, if_pos h10]
                            exact pure_goodPair callHandler_pure i j n
                          · rw [if_neg h10, if_neg h10]
                            by_cases h11 : n.tag = "return"
                            · rw [if_pos h11, if_pos h11]
                              exact pure_goodPair returnHandler_pure i j n
                            · rw [if_neg h11, if_neg h11]
                              by_cases h12 : n.tag = "arg"
                              · rw [if_pos h12, if_pos h12]
                                exact pure_goodPair argHandler_pure i j n
                              · rw [if_neg h12, if_neg h12]
                                by_cases h13 : n.tag = "table"
                                · rw [if_pos h13, if_pos h13]
                                  exact pure_goodPair tableHandler_pure i j n
                                · rw [if_neg h13, if_neg h13]
                                  by_cases h14 : n.tag = "entry"
                                  · rw [if_pos h14, if_pos h14]
                                    exact pure_goodPair entryHandler_pure i j n
                                  · rw [if_neg h14, if_neg h14]
                                    by_cases h15 : n.tag = "array"
                                    · rw [if_pos h15, if_pos h15]
                                      exact pure_goodPair arrayHandler_pure i j n
                                    · rw [if_neg h15, if_neg h15]
                                      by_cases h16 : n.tag = "item"
                                      · rw [if_pos h16, if_pos h16]
                                        exact pure_goodPair itemHandler_pure i j n
                                      · rw [if_neg h16, if_neg h16]
                                        by_cases h17 : n.tag = "print"
                                        · rw [if_pos h17, if_pos h17]
                                          exact pure_goodPair printHandler_pure i j n
                                        · rw [if_neg h17, if_neg h17]
                                          by_cases h18 : n.tag = "warn"
                                          · rw [if_pos h18, if_pos h18]
                                            exact pure_goodPair warnHandler_pure i j n
                                          · rw [if_neg h18, if_neg h18]
                                            by_cases h19 : n.tag = "error"
                                            · rw [if_pos h19, if_pos h19]
                                              exact pure_goodPair errorHandler_pure i j n
                                            · rw [if_neg h19, if_neg h19]
                                              by_cases h20 : n.tag = "raw"
                                              · rw [if_pos h20, if_pos h20]
                                                exact pure_goodPair rawHandler_pure i j n
                                              · rw [if_neg h20, if_neg h20]
                                                by_cases h21 : n.tag = "comment"
                                                · rw [if_pos h21, if_pos h21]
                                                  exact pure_goodPair commentHandler_pure i j n
                                                · rw [if_neg h21, if_neg h21]
                                                  by_cases h22 : n.tag = "assert"
                                                  · rw [if_pos h22, if_pos h22]
                                                    exact pure_goodPair assertHandler_pure i j n
                                                  · rw [if_neg h22, if_neg h22]
                                                    by_cases h23 : n.tag = "typeof"
                                                    · rw [if_pos h23, if_pos h23]
                                                      exact pure_goodPair typeofHandler_pure i j n
                                                    · rw [if_neg h23, if_neg h23]
                                                      refine ⟨by simp, by simp [Nat.add_comm], by simp, by simp⟩
    · intro ns hns
      rcases ns with _ | ⟨c, rest⟩
      · intro i j a b
        unfold compileList
        refine ⟨by simp, by simp [Nat.add_comm], by simp, by simp⟩
      · have hc : NodeGood c := by
          refine (ih (sizeOf c) ?_).1 c le_rfl
          have : sizeOf c < sizeOf (c :: rest) := by simp; omega
          omega
        have hrest : ListGood rest := by
          refine (ih (sizeOf rest) ?_).2 rest le_rfl
          have : sizeOf rest < sizeOf (c :: rest) := by simp
          omega
        intro i j a b
        unfold compileList
        obtain ⟨ce, _, cr, _⟩ := hc i j
        obtain ⟨_, _, cr2, _⟩ := hc j i
        rcases h1 : (compileNode i c).err with _ | e
        · have h2 : (compileNode j c).err = none := by rw [← ce, h1]
          have hri := cr h1
          have hrj := cr2 h2
          simp only [h1, h2]
          rw [hri, hrj]
          exact hrest i j _ _
        · have h2 : (compileNode j c).err = some e := by rw [← ce, h1]
          obtain ⟨_, cd, _, _⟩ := hc i j
          simp only [h1, h2]
          refine ⟨by simp, by simp; omega, by simp, fun _ => by simp⟩

/-- Every node satisfies the invariant. -/
theorem nodeGood_all (n : Node) : NodeGood n :=
  (compile_good_aux (sizeOf n)).1 n le_rfl

/-- Every child list satisfies the invariant. -/
theorem listGood_all (ns : List Node) : ListGood ns :=
  (compile_good_aux (sizeOf ns)).2 ns le_rfl

theorem compileList_nil (i : Nat) (acc : String) :
    compileList i [] acc = ⟨acc, none, i⟩ := by
  rw [compileList]

theorem compileList_cons (i : Nat) (c : Node) (rest : List Node) (acc : String) :
    compileList i (c :: rest) acc
      = match (compileNode i c).err with
        | some e => ⟨"", some e, (compileNode i c).ind⟩
        | none => compileList (compileNode i c).ind rest
            (if (compileNode i c).out ≠ "" then acc ++ (compileNode i c).out ++ "\n" else acc) := by
  rw [compileList]

theorem scriptChildren_nil (i : Nat) (acc : List String) :
    scriptChildren i [] acc = (acc, none, i) := rfl

theorem scriptChildren_cons (i : Nat) (c : Node) (rest : List Node) (acc : List String) :
    scriptChildren i (c :: rest) acc
      = match (compileNode i c).err with
        | some e => ([], some e, (compileNode i c).ind)
        | none => scriptChildren (compileNode i c).ind rest
            (if (compileNode i c).out ≠ "" then acc ++ [(compileNode i c).out] else acc) := rfl

theorem compileNode_err_indep (n : Node) (i j : Nat) :
    (compileNode i n).err = (compileNode j n).err :=
  (nodeGood_all n i j).1

theorem compileNode_restore (n : Node) (i : Nat)
    (h : (compileNode i n).err = none) : (compileNode i n).ind = i :=
  (nodeGood_all n i i).2.2.1 h

theorem compileNode_err_out (n : Node) (i : Nat)
    (h : (compileNode i n).err ≠ none) : (compileNode i n).out = "" :=
  (nodeGood_all n i i).2.2.2 h

theorem compileList_err_out (ns : List Node) (i : Nat) (a : String)
    (h : (compileList i ns a).err ≠ none) : (compileList i ns a).out = "" :=
  (listGood_all ns i i a a).2.2.2 h

/-- The `script` child loop satisfies the same invariant as the block
child loop: error and indent delta independent of the starting indent
and accumulator, success restores the indent. -/
theorem scriptChildren_good (ns : List Node) : ∀ (i j : Nat) (a b : List String),
    (scriptChildren i ns a).2.1 = (scriptChildren j ns b).2.1
    ∧ (scriptChildren i ns a).2.2 + j = (scriptChildren j ns b).2.2 + i
    ∧ ((scriptChildren i ns a).2.1 = none → (scriptChildren i ns a).2.2 = i) := by
  induction ns with
  | nil =>
    intro i j a b
    simp only [scriptChildren_nil]
    refine ⟨by simp, by simp [Nat.add_comm], by simp⟩
  | cons c rest ihr =>
    intro i j a b
    simp only [scriptChildren_cons]
    obtain ⟨ce, cd, cr, _⟩ := nodeGood_all c i j
    obtain ⟨_, _, cr2, _⟩ := nodeGood_all c j i
    rcases h1 : (compileNode i c).err with _ | e
    · have h2 : (compileNode j c).err = none := by rw [← ce, h1]
      simp only [h1, h2]
      rw [cr h1, cr2 h2]
      exact ihr i j _ _
    · have h2 : (compileNode j c).err = some e := by rw [← ce, h1]
      simp only [h1, h2]
      refine ⟨by simp, by omega, by simp⟩

/-- On success the `script` child loop collects exactly the non-empty
outputs of compiling each child at the (restored) starting indent, in
document order. -/
theorem scriptChildren_ok (ns : List Node) : ∀ (i : Nat) (acc : List String),
    (scriptChildren i ns acc).2.1 = none →
    (scriptChildren i ns acc).1
        = acc ++ (ns.map (fun c => (compileNode i c).out)).filter (fun s => s != "")
    ∧ (scriptChildren i ns acc).2.2 = i := by
  induction ns with
  | nil =>
    intro i acc _
    simp [scriptChildren_nil]
  | cons c rest ihr =>
    intro i acc hok
    rw [scriptChildren_cons] at hok ⊢
    rcases h1 : (compileNode i c).err with _ | e
    · have hri := compileNode_restore c i h1
      simp only [h1] at hok ⊢
      rw [hri] at hok ⊢
      obtain ⟨o1, o2⟩ := ihr i (if (compileNode i c).out ≠ "" then acc ++ [(compileNode i c).out] else acc) hok
      refine ⟨?_, o2⟩
      rw [o1]
      by_cases ho : (compileNode i c).out = ""
      · simp [ho]
      · simp [ho]
    · simp only [h1] at hok
      simp at hok

/-- Fail-fast of the block child loop in document order: when every node
of a prefix compiles and the next child fails, the whole loop returns
that child's error with empty output, independently of the remaining
children, which are never compiled. -/
theorem compileList_append_err (pre : List Node) :
    ∀ (i : Nat) (acc : String) (c : Node) (post : List Node) (e : String),
    (compileList i pre acc).err = none →
    (compileNode (compileList i pre acc).ind c).err = some e →
    compileList i (pre ++ c :: post) acc
      = ⟨"", some e, (compileNode (compileList i pre acc).ind c).ind⟩ := by
  induction pre with
  | nil =>
    intro i acc c post e _ hc
    rw [compileList_nil] at hc
    have hc2 : (compileNode i c).err = some e := hc
    rw [List.nil_append, compileList_cons, hc2, compileList_nil]
  | cons p pre ihp =>
    intro i acc c post e h0 hc
    rw [compileList_cons] at h0 hc ⊢
    rw [List.cons_append, compileList_cons]
    rcases hp : (compileNode i p).err with _ | ep
    · simp only [hp] at h0 hc ⊢
      exact ihp _ _ c post e h0 hc
    · simp only [hp] at h0
      simp at h0

/-- Fail-fast of the `script` child loop in document order. -/
theorem scriptChildren_append_err (pre : List Node) :
    ∀ (i : Nat) (acc : List String) (c : Node) (post : List Node) (e : String),
    (scriptChildren i pre acc).2.1 = none →
    (compileNode (scriptChildren i pre acc).2.2 c).err = some e →
    scriptChildren i (pre ++ c :: post) acc
      = ([], some e, (compileNode (scriptChildren i pre acc).2.2 c).ind) := by
  induction pre with
  | nil =>
    intro i acc c post e _ hc
    rw [scriptChildren_nil] at hc
    have hc2 : (compileNode i c).err = some e := hc
    rw [List.nil_append, scriptChildren_cons, hc2, scriptChildren_nil]
  | cons p pre ihp =>
    intro i acc c post e h0 hc
    rw [scriptChildren_cons] at h0 hc ⊢
    rw [List.cons_append, scriptChildren_cons]
    rcases hp : (compileNode i p).err with _ | ep
    · simp only [hp] at h0 hc ⊢
      exact ihp _ _ c post e h0 hc
    · simp only [hp] at h0
      simp at h0

theorem compileFromTree_err_out (i : Nat) (root : Node)
    (h : (compileFromTree i root).err ≠ none) : (compileFromTree i root).out = "" := by
  unfold compileFromTree at h ⊢
  by_cases hs : root.tag = "script"
  · rw [if_pos hs] at h ⊢
    rcases hr : scriptChildren i root.nodes [] with ⟨rs, e?, i2⟩
    rcases e? with _ | e
    · rw [hr] at h; simp at h
    · rfl
  · rw [if_neg hs] at h ⊢
    exact compileNode_err_out root i h

/-- `compileNode` is exactly the text-fragment rule plus a lookup in the
built-in registry. -/
theorem compileNode_dispatch (i : Nat) (n : Node) :
    compileNode i n =
      if n.tag = "" then
        (if trimSpace n.content = "" then ⟨"", none, i⟩
         else ⟨"", some ("unexpected text content: " ++ trimSpace n.content), i⟩)
      else
        match lookupHandler n.tag with
        | some h => h i n
        | none => ⟨"", some ("unknown tag: " ++ n.tag), i⟩ := by
  unfold compileNode lookupHandler
  by_cases h0 : n.tag = ""
  · rw [if_pos h0, if_pos h0]
  · rw [if_neg h0, if_neg h0]
    by_cases h1 : n.tag = "set"
    · rw [if_pos h1, if_pos h1]
    · rw [if_neg h1, if_neg h1]
      by_cases h2 : n.tag = "if"
      · rw [if_pos h2, if_pos h2]
      · rw [if_neg h2, if_neg h2]
        by_cases h3 : n.tag = "elseif"
        · rw [if_pos h3, if_pos h3]
        · rw [if_neg h3, if_neg h3]
          by_cases h4 : n.tag = "else"
          · rw [if_pos h4, if_pos h4]
          · rw [if_neg h4, if_neg h4]
            by_cases h5 : n.tag = "for"
            · rw [if_pos h5, if_pos h5]
            · rw [if_neg h5, if_neg h5]
              by_cases h6 : n.tag = "while"
              · rw [if_pos h6, if_pos h6]
              · rw [if_neg h6, if_neg h6]
                by_cases h7 : n.tag = "repeat"
                · rw [if_pos h7, if_pos h7]
                · rw [if_neg h7, if_neg h7]
                  by_cases h8 : n.tag = "break"
                  · rw [if_pos h8, if_pos h8]
                  · rw [if_neg h8, if_neg h8]
                    by_cases h9 : n.tag = "function"
                    · rw [if_pos h9, if_pos h9]
                    · rw [if_neg h9, if_neg h9]
                      by_cases h10 : n.tag = "call"
                      · rw [if_pos h10, if_pos h10]
                      · rw [if_neg h10, if_neg h10]
                        by_cases h11 : n.tag = "return"
                        · rw [if_pos h11, if_pos h11]
                        · rw [if_neg h11, if_neg h11]
                          by_cases h12 : n.tag = "arg"
                          · rw [if_pos h12, if_pos h12]
                          · rw [if_neg h12, if_neg h12]
                            by_cases h13 : n.tag = "table"
                            · rw [if_pos h13, if_pos h13]
                            · rw [if_neg h13, if_neg h13]
                              by_cases h14 : n.tag = "entry"
                              · rw [if_pos h14, if_pos h14]
                              · rw [if_neg h14, if_neg h14]
                                by_cases h15 : n.tag = "array"
                                · rw [if_pos h15, if_pos h15]
                                · rw [if_neg h15, if_neg h15]
                                  by_cases h16 : n.tag = "item"
                                  · rw [if_pos h16, if_pos h16]
                                  · rw [if_neg h16, if_neg h16]
                                    by_cases h17 : n.tag = "print"
                                    · rw [if_pos h17, if_pos h17]
                                    · rw [if_neg h17, if_neg h17]
                                      by_cases h18 : n.tag = "warn"
                                      · rw [if_pos h18, if_pos h18]
                                      · rw [if_neg h18, if_neg h18]
                                        by_cases h19 : n.tag = "error"
                                        · rw [if_pos h19, if_pos h19]
                                        · rw [if_neg h19, if_neg h19]
                                          by_cases h20 : n.tag = "raw"
                                          · rw [if_pos h20, if_pos h20]
                                          · rw [if_neg h20, if_neg h20]
                                            by_cases h21 : n.tag = "comment"
                                            · rw [if_pos h21, if_pos h21]
                                            · rw [if_neg h21, if_neg h21]
                                              by_cases h22 : n.tag = "assert"
                                              · rw [if_pos h22, if_pos h22]
                                              · rw [if_neg h22, if_neg h22]
                                                by_cases h23 : n.tag = "typeof"
                                                · rw [if_pos h23, if_pos h23]
                                                · rw [if_neg h23, if_neg h23]

/-- C3: the dispatch contract of `compileNode`: whitespace-only text
fragments yield empty output and no error; a text fragment with
non-whitespace content is the hard error naming the offending text;
a non-empty tag with no registered handler fails with an unknown-tag
error naming the tag; a registered tag invokes its handler on the
current compiler state. -/
theorem c3_dispatch_contract (i : Nat) (n : Node) :
    (n.tag = "" → trimSpace n.content = "" → compileNode i n = ⟨"", none, i⟩)
    ∧ (n.tag = "" → trimSpace n.content ≠ "" →
        compileNode i n = ⟨"", some ("unexpected text content: " ++ trimSpace n.content), i⟩)
    ∧ (n.tag ≠ "" → lookupHandler n.tag = none →
        compileNode i n = ⟨"", some ("unknown tag: " ++ n.tag), i⟩)
    ∧ (∀ h, lookupHandler n.tag = some h → compileNode i n = h i n) := by
  refine ⟨?_, ?_, ?_, ?_⟩
  · intro h1 h2
    rw [compileNode_dispatch, if_pos h1, if_pos h2]
  · intro h1 h2
    rw [compileNode_dispatch, if_pos h1, if_neg h2]
  · intro h1 h2
    rw [compileNode_dispatch, if_neg h1, h2]
  · intro h hsome
    have h1 : n.tag ≠ "" := by
      intro hh
      rw [hh] at hsome
      simp [lookupHandler] at hsome
    rw [compileNode_dispatch, if_neg h1, hsome]

/-- C3 witness: the four dispatch cases at concrete nodes. -/
theorem c3_dispatch_contract_witness :
    compileNode 0 ⟨"", [], "  \n ", []⟩ = ⟨"", none, 0⟩
    ∧ compileNode 0 ⟨"", [], " boo ", []⟩ = ⟨"", some ("unexpected text content: " ++ trimSpace " boo "), 0⟩
    ∧ compileNode 0 ⟨"unknown", [], "content", []⟩ = ⟨"", some ("unknown tag: " ++ "unknown"), 0⟩
    ∧ compileNode 0 ⟨"break", [], "", []⟩ = breakHandler 0 ⟨"break", [], "", []⟩ :=
  ⟨(c3_dispatch_contract 0 _).1 rfl (by decide),
   (c3_dispatch_contract 0 _).2.1 rfl (by decide),
   (c3_dispatch_contract 0 _).2.2.1 (by decide) (by rfl),
   (c3_dispatch_contract 0 _).2.2.2 (breakHandler) (by rfl)⟩

/-- C10: `GetAttrWithDefault` returns the attribute's looked-up value
exactly when that value is non-empty, and the default whenever the
looked-up value is the empty string, including when the attribute is
present with an explicitly empty value. -/
theorem c10_getAttrWithDefault (n : Node) (name d : String) :
    (GetAttr n name ≠ "" → GetAttrWithDefault n name d = GetAttr n name)
    ∧ (GetAttr n name = "" → GetAttrWithDefault n name d = d) := by
  unfold GetAttrWithDefault
  constructor
  · intro h
    rw [if_pos h]
  · intro h
    rw [if_neg (by simp [h])]

/-- C10 witness: an explicitly empty attribute falls back to the
default, a non-empty one is returned as-is. -/
theorem c10_getAttrWithDefault_witness :
    GetAttrWithDefault ⟨"error", [⟨"level", ""⟩], "x", []⟩ "level" "1" = "1"
    ∧ GetAttrWithDefault ⟨"error", [⟨"level", "2"⟩], "x", []⟩ "level" "1" = "2" :=
  ⟨(c10_getAttrWithDefault ⟨"error", [⟨"level", ""⟩], "x", []⟩ "level" "1").2 (by decide),
   ((c10_getAttrWithDefault ⟨"error", [⟨"level", "2"⟩], "x", []⟩ "level" "1").1 (by decide)).trans
     (by decide)⟩

/-- C6: the counted-loop literal scenario: a `for` node with var `i`,
bounds 1 and 10, containing a `print` of the placeholder text, compiled
at indent level 0, produces exactly the three expected lines, and the
indent unit is exactly four spaces per nesting level. -/
theorem c6_for_loop_literal :
    compileFromTree 0 ⟨"for", [⟨"var", "i"⟩, ⟨"from", "1"⟩, ⟨"to", "10"⟩], "",
        [⟨"print", [], "\x7b\x7bi\x7d\x7d", []⟩]⟩
      = ⟨"for i = 1, 10 do\n    print(\"\" .. tostring(i) .. \"\")\nend", none, 0⟩
    ∧ (∀ k, (getIndent k).length = 4 * k) := by
  constructor
  · simp [compileFromTree, compileNode, forHandler, compileList, printHandler,
      GetAttr, GetAttrWithDefault, GetBoolAttr, IsValidIdentifier, isLetterOrUnderscore, isIdentChar,
      luauKeywords, List.find?,
      trimSpace, trimSpaceList, isGoSpace, containsSubstr, goContains,
      Interpolate, interpAux_hit, interpAux_nil, matchPlaceholder, takeNonBrace, spliceFor,
      getIndent, strRepeat]
  · intro k
    induction k with
    | zero => rfl
    | succ m ih =>
      show (strRepeat "    " (m + 1)).length = 4 * (m + 1)
      rw [strRepeat, String.length_append]
      have ih2 : (strRepeat "    " m).length = 4 * m := ih
      rw [show ("    " : String).length = 4 from rfl, ih2]
      omega

/-- C1 counterexample: the `if` handler invoked at indent 0 on a node
whose child fails returns with the indent counter still incremented to 1,
so the claimed restore-on-error does not hold. -/
theorem c1_counterexample :
    (ifHandler 0 ⟨"if", [⟨"test", "x"⟩], "", [⟨"unknown", [], "", []⟩]⟩).err ≠ none
    ∧ (ifHandler 0 ⟨"if", [⟨"test", "x"⟩], "", [⟨"unknown", [], "", []⟩]⟩).ind ≠ 0 := by
  have : ifHandler 0 ⟨"if", [⟨"test", "x"⟩], "", [⟨"unknown", [], "", []⟩]⟩
      = ⟨"", some "unknown tag: unknown", 1⟩ := by
    simp [ifHandler, compileList, compileNode, GetAttr, List.find?, getIndent, strRepeat]
  rw [this]
  exact ⟨by simp, by simp⟩

/-- C1 (amended): each block-introducing handler increments the indent
counter around its children and restores it when the handler returns
successfully; when compiling a child returns an error the handler
returns immediately and the incremented indent leaks (see the
counterexample). -/
theorem c1_indent_restored_on_success (n : Node) (i : Nat) :
    ((ifHandler i n).err = none → (ifHandler i n).ind = i)
    ∧ ((elseifHandler i n).err = none → (elseifHandler i n).ind = i)
    ∧ ((elseHandler i n).err = none → (elseHandler i n).ind = i)
    ∧ ((forHandler i n).err = none → (forHandler i n).ind = i)
    ∧ ((whileHandler i n).err = none → (whileHandler i n).ind = i)
    ∧ ((repeatHandler i n).err = none → (repeatHandler i n).ind = i)
    ∧ ((functionHandler i n).err = none → (functionHandler i n).ind = i) :=
  ⟨(ifHandler_good n (listGood_all n.nodes) i i).2.2.1,
   (elseifHandler_good n (listGood_all n.nodes) i i).2.2.1,
   (elseHandler_good n (listGood_all n.nodes) i i).2.2.1,
   (forHandler_good n (listGood_all n.nodes) i i).2.2.1,
   (whileHandler_good n (listGood_all n.nodes) i i).2.2.1,
   (repeatHandler_good n (listGood_all n.nodes) i i).2.2.1,
   (functionHandler_good n (listGood_all n.nodes) i i).2.2.1⟩

/-- C1 witness: a successful `if` at indent 3 returns with indent 3. -/
theorem c1_indent_restored_on_success_witness :
    (ifHandler 3 ⟨"if", [⟨"test", "x"⟩], "", [⟨"break", [], "", []⟩]⟩).ind = 3 :=
  (c1_indent_restored_on_success ⟨"if", [⟨"test", "x"⟩], "", [⟨"break", [], "", []⟩]⟩ 3).1
    (by simp [ifHandler, compileList, compileNode, breakHandler, GetAttr, List.find?,
      getIndent, strRepeat])

/-- The characterization of a `script` root whose child loop failed. -/
theorem compileFromTree_script_some (i : Nat) (root : Node) (e : String)
    (hs : root.tag = "script")
    (he : (scriptChildren i root.nodes []).2.1 = some e) :
    compileFromTree i root = ⟨"", some e, (scriptChildren i root.nodes []).2.2⟩ := by
  unfold compileFromTree
  rw [if_pos hs]
  rcases hr : scriptChildren i root.nodes [] with ⟨rs, e2, i2⟩
  rw [hr] at he
  simp only at he
  subst he
  rfl

/-- The characterization of a `script` root whose child loop succeeded. -/
theorem compileFromTree_script_none (i : Nat) (root : Node)
    (hs : root.tag = "script")
    (he : (scriptChildren i root.nodes []).2.1 = none) :
    compileFromTree i root
      = ⟨String.intercalate "\n" (scriptChildren i root.nodes []).1, none,
          (scriptChildren i root.nodes []).2.2⟩ := by
  unfold compileFromTree
  rw [if_pos hs]
  rcases hr : scriptChildren i root.nodes [] with ⟨rs, e2, i2⟩
  rw [hr] at he
  simp only at he
  subst he
  rfl

/-- Error independence of the starting indent, and indent restoration on
success, for the whole-tree entry point. -/
theorem compileFromTree_good (root : Node) (i j : Nat) :
    (compileFromTree i root).err = (compileFromTree j root).err
    ∧ ((compileFromTree i root).err = none → (compileFromTree i root).ind = i) := by
  by_cases hs : root.tag = "script"
  · obtain ⟨se, sd, sr⟩ := scriptChildren_good root.nodes i j [] []
    rcases he : (scriptChildren i root.nodes []).2.1 with _ | e
    · have he2 : (scriptChildren j root.nodes []).2.1 = none := by rw [← se, he]
      rw [compileFromTree_script_none i root hs he, compileFromTree_script_none j root hs he2]
      exact ⟨rfl, fun _ => sr he⟩
    · have he2 : (scriptChildren j root.nodes []).2.1 = some e := by rw [← se, he]
      rw [compileFromTree_script_some i root e hs he, compileFromTree_script_some j root e hs he2]
      exact ⟨rfl, by simp⟩
  · unfold compileFromTree
    rw [if_neg hs, if_neg hs]
    exact ⟨compileNode_err_indep root i j, compileNode_restore root i⟩

/-- C2: fail-fast with no partial output. Failures of `compileNode` and
of the whole-tree compile always come with an empty output string, and
in both child loops the first failing child in document order determines
the whole result: the error is the failing child's error, the output is
empty, and the children after the failing one do not influence the
result (they are never compiled). -/
theorem c2_failfast_no_partial_output (i : Nat) (n root c : Node)
    (pre post : List Node) (acc : String) (accL : List String) :
    ((compileNode i n).err ≠ none → (compileNode i n).out = "")
    ∧ ((compileFromTree i root).err ≠ none → (compileFromTree i root).out = "")
    ∧ ((compileList i pre acc).err = none →
        ∀ e, (compileNode (compileList i pre acc).ind c).err = some e →
        compileList i (pre ++ c :: post) acc
          = ⟨"", some e, (compileNode (compileList i pre acc).ind c).ind⟩)
    ∧ ((scriptChildren i pre accL).2.1 = none →
        ∀ e, (compileNode (scriptChildren i pre accL).2.2 c).err = some e →
        scriptChildren i (pre ++ c :: post) accL
          = ([], some e, (compileNode (scriptChildren i pre accL).2.2 c).ind)) :=
  ⟨compileNode_err_out n i, compileFromTree_err_out i root,
   fun h e hc => compileList_append_err pre i acc c post e h hc,
   fun h e hc => scriptChildren_append_err pre i accL c post e h hc⟩

/-- C2 witness: a failing node yields empty output, and a child list
whose second child fails stops there with that child's error, with the
trailing child never influencing the result. -/
theorem c2_failfast_no_partial_output_witness :
    (compileNode 0 ⟨"unknown", [], "", []⟩).out = ""
    ∧ compileList 0 ([⟨"break", [], "", []⟩] ++ ⟨"unknown", [], "", []⟩ :: [⟨"print", [], "x", []⟩]) ""
        = ⟨"", some "unknown tag: unknown", 0⟩ := by
  have h1 := (c2_failfast_no_partial_output 0 ⟨"unknown", [], "", []⟩ ⟨"", [], "", []⟩
      ⟨"unknown", [], "", []⟩ [] [] "" []).1 (by
        simp [compileNode, GetAttr, List.find?])
  have hpre : (compileList 0 [⟨"break", [], "", []⟩] "").err = none := by
    simp [compileList, compileNode, breakHandler, getIndent, strRepeat]
  have hind : (compileList 0 [⟨"break", [], "", []⟩] "").ind = 0 := by
    simp [compileList, compileNode, breakHandler, getIndent, strRepeat]
  have hc : (compileNode (compileList 0 [⟨"break", [], "", []⟩] "").ind ⟨"unknown", [], "", []⟩).err
      = some "unknown tag: unknown" := by
    rw [hind]
    simp [compileNode, GetAttr, List.find?]
  have h2 := (c2_failfast_no_partial_output 0 ⟨"", [], "", []⟩ ⟨"", [], "", []⟩
      ⟨"unknown", [], "", []⟩ [⟨"break", [], "", []⟩] [⟨"print", [], "x", []⟩] "" []).2.2.1
      hpre "unknown tag: unknown" hc
  refine ⟨h1, h2.trans ?_⟩
  rw [hind]
  simp [compileNode, GetAttr, List.find?]

/-- C4: compilation is deterministic across two successive calls on the
same compiler: whatever indent state the first call leaves behind, the
second call on the same tree returns a byte-identical output string and
the same error value. (On success the indent is restored so the runs are
literally identical; on failure both runs return empty output and the
error value does not depend on the indent state.) -/
theorem c4_deterministic (i : Nat) (root : Node) :
    (compileFromTree i root).out = (compileFromTree (compileFromTree i root).ind root).out
    ∧ (compileFromTree i root).err = (compileFromTree (compileFromTree i root).ind root).err := by
  rcases herr : (compileFromTree i root).err with _ | e
  · have hind : (compileFromTree i root).ind = i := (compileFromTree_good root i i).2 herr
    rw [hind]
    exact ⟨rfl, herr.symm⟩
  · have he2 : (compileFromTree (compileFromTree i root).ind root).err = some e := by
      rw [(compileFromTree_good root (compileFromTree i root).ind i).1]
      exact herr
    constructor
    · rw [compileFromTree_err_out i root (by rw [herr]; simp),
        compileFromTree_err_out (compileFromTree i root).ind root (by rw [he2]; simp)]
    · exact he2.symm

/-- C5: root handling of the whole-tree compile: under a `script` root
each child is compiled independently at the same indent, in document
order, and the non-empty outputs are joined with single newline
separators; any other root is compiled directly as a single statement. -/
theorem c5_root_handling (i : Nat) (root : Node) :
    (root.tag = "script" → (compileFromTree i root).err = none →
      (compileFromTree i root).out
        = String.intercalate "\n"
            ((root.nodes.map (fun c => (compileNode i c).out)).filter (fun s => s != "")))
    ∧ (root.tag ≠ "script" → compileFromTree i root = compileNode i root) := by
  constructor
  · intro hs hok
    have he : (scriptChildren i root.nodes []).2.1 = none := by
      rcases he2 : (scriptChildren i root.nodes []).2.1 with _ | e
      · rfl
      · rw [compileFromTree_script_some i root e hs he2] at hok
        simp at hok
    obtain ⟨o1, _⟩ := scriptChildren_ok root.nodes i [] he
    rw [compileFromTree_script_none i root hs he]
    simp only [o1, List.nil_append]
  · intro hs
    unfold compileFromTree
    rw [if_neg hs]

/-- C5 witness: a two-statement script joins the children's outputs with
one newline; a non-script root compiles as a single statement. -/
theorem c5_root_handling_witness :
    (compileFromTree 0 ⟨"script", [], "", [⟨"break", [], "", []⟩, ⟨"return", [], "", []⟩]⟩).out
      = String.intercalate "\n"
          (([⟨"break", [], "", []⟩, (⟨"return", [], "", []⟩ : Node)].map
            (fun c => (compileNode 0 c).out)).filter (fun s => s != ""))
    ∧ compileFromTree 0 ⟨"break", [], "", []⟩ = compileNode 0 ⟨"break", [], "", []⟩ := by
  constructor
  · refine (c5_root_handling 0 ⟨"script", [], "", [⟨"break", [], "", []⟩, ⟨"return", [], "", []⟩]⟩).1 rfl ?_
    have : (scriptChildren 0 [(⟨"break", [], "", []⟩ : Node), ⟨"return", [], "", []⟩] []).2.1 = none := by
      simp [scriptChildren, compileNode, breakHandler, returnHandler, getIndent, strRepeat,
        trimSpace, trimSpaceList, isGoSpace]
    rw [compileFromTree_script_none 0 _ rfl this]
  · exact (c5_root_handling 0 ⟨"break", [], "", []⟩).2 (by decide)

theorem takeNonBrace_no_brace (cs : List Char) :
    ∀ c ∈ (takeNonBrace cs).1, c ≠ '\x7d' := by
  induction cs with
  | nil => simp [takeNonBrace]
  | cons c t ih =>
    by_cases h : c = '\x7d'
    · simp [takeNonBrace, h]
    · simp only [takeNonBrace, h, if_false, Bool.false_eq_true]
      intro x hx
      rcases List.mem_cons.mp hx with hx1 | hx2
      · rw [hx1]; exact h
      · exact ih x hx2

theorem takeNonBrace_append_brace (v : List Char) (r : List Char)
    (hv : ∀ c ∈ v, c ≠ '\x7d') :
    takeNonBrace (v ++ '\x7d' :: r) = (v, '\x7d' :: r) := by
  induction v with
  | nil => simp [takeNonBrace]
  | cons c t ih =>
    have hc : c ≠ '\x7d' := hv c (by simp)
    have ht : ∀ x ∈ t, x ≠ '\x7d' := fun x hx => hv x (by simp [hx])
    rw [List.cons_append]
    simp only [takeNonBrace, hc, if_false, Bool.false_eq_true]
    rw [ih ht]

theorem matchPlaceholder_run {cs : List Char} {p : List Char × List Char}
    (h : matchPlaceholder cs = some p) : ∀ c ∈ p.1, c ≠ '\x7d' := by
  unfold matchPlaceholder at h
  split at h
  · exact absurd h (by simp)
  · split at h
    · rcases h with ⟨⟩
      exact takeNonBrace_no_brace cs
    · exact absurd h (by simp)

theorem matchPlaceholder_of_parts (v b : List Char) (hv : v ≠ [])
    (hnb : ∀ c ∈ v, c ≠ '\x7d') :
    matchPlaceholder (v ++ '\x7d' :: '\x7d' :: b) = some (v, b) := by
  unfold matchPlaceholder
  rw [takeNonBrace_append_brace v ('\x7d' :: b) hnb]
  simp [hv]

/-- A double-brace placeholder in the sense of the interpolation claim:
two opening braces, one or more non-closing-brace characters, two
closing braces, somewhere in the character list. -/
def hasPlaceholder (cs : List Char) : Prop :=
  ∃ a v b, cs = a ++ '\x7b' :: '\x7b' :: (v ++ '\x7d' :: '\x7d' :: b)
    ∧ v ≠ [] ∧ ∀ c ∈ v, c ≠ '\x7d'

/-- A string with no double-brace placeholder. -/
def placeholderFree (s : String) : Prop :=
  ¬ hasPlaceholder s.data

theorem hasPlaceholder_cons {c : Char} {cs : List Char}
    (h : hasPlaceholder cs) : hasPlaceholder (c :: cs) := by
  obtain ⟨a, v, b, heq, hv, hnb⟩ := h
  exact ⟨c :: a, v, b, by rw [heq]; rfl, hv, hnb⟩

theorem interpAux_id (k : Nat) : ∀ cs : List Char, cs.length ≤ k →
    ¬ hasPlaceholder cs → interpAux cs = cs := by
  induction k with
  | zero =>
    intro cs hl _
    rcases cs with _ | ⟨c, t⟩
    · exact interpAux_nil
    · simp at hl
  | succ k ih =>
    intro cs hl hfree
    rcases cs with _ | ⟨c1, rest⟩
    · exact interpAux_nil
    · rcases rest with _ | ⟨c2, rest⟩
      · exact interpAux_single c1
      · by_cases hbr : c1 = '\x7b' ∧ c2 = '\x7b'
        · obtain ⟨hb1, hb2⟩ := hbr
          subst hb1
          subst hb2
          rcases hm : matchPlaceholder rest with _ | p
          · rw [interpAux_miss rest hm]
            have h2 : interpAux ('\x7b' :: rest) = '\x7b' :: rest := by
              apply ih
              · simp at hl ⊢
                omega
              · intro hph
                exact hfree (hasPlaceholder_cons hph)
            rw [h2]
          · exfalso
            apply hfree
            rcases p with ⟨run, rest2⟩
            obtain ⟨heq, hne⟩ := matchPlaceholder_some hm
            exact ⟨[], run, rest2, by rw [heq]; rfl, hne, matchPlaceholder_run hm⟩
        · rw [interpAux_no_open c1 c2 rest hbr]
          have h2 : interpAux (c2 :: rest) = c2 :: rest := by
            apply ih
            · simp at hl ⊢
              omega
            · intro hph
              exact hfree (hasPlaceholder_cons hph)
          rw [h2]

theorem interpAux_splice (a : List Char) : (∀ c ∈ a, c ≠ '\x7b') →
    ∀ (v b : List Char), v ≠ [] → (∀ c ∈ v, c ≠ '\x7d') →
    interpAux (a ++ '\x7b' :: '\x7b' :: (v ++ '\x7d' :: '\x7d' :: b))
      = a ++ ((spliceFor (trimSpace ⟨v⟩)).data ++ interpAux b) := by
  induction a with
  | nil =>
    intro _ v b hv hnb
    rw [List.nil_append, interpAux_hit _ (v, b) (matchPlaceholder_of_parts v b hv hnb)]
    rfl
  | cons c a2 ih =>
    intro hA v b hv hnb
    have hc : c ≠ '\x7b' := hA c (by simp)
    have hA2 : ∀ x ∈ a2, x ≠ '\x7b' := fun x hx => hA x (by simp [hx])
    rcases hsh : a2 ++ '\x7b' :: '\x7b' :: (v ++ '\x7d' :: '\x7d' :: b) with _ | ⟨c2, rest2⟩
    · exact absurd hsh (by simp)
    · rw [List.cons_append, hsh, interpAux_no_open c c2 rest2 (fun hand => hc hand.1), ← hsh,
        ih hA2 v b hv hnb]
      simp

/-- C7: interpolation expansion is the identity on placeholder-free
text, and each placeholder present is replaced by the splice that closes
the string literal, concatenates the stringified (trimmed) expression,
and reopens the literal. -/
theorem c7_interpolation (s : String) :
    (placeholderFree s → Interpolate s = s)
    ∧ (∀ (a v b : List Char), (∀ c ∈ a, c ≠ '\x7b') → v ≠ [] → (∀ c ∈ v, c ≠ '\x7d') →
        Interpolate ⟨a ++ '\x7b' :: '\x7b' :: (v ++ '\x7d' :: '\x7d' :: b)⟩
          = ⟨a⟩ ++ "\" .. tostring(" ++ trimSpace ⟨v⟩ ++ ") .. \"" ++ Interpolate ⟨b⟩) := by
  constructor
  · intro hfree
    unfold Interpolate
    rw [interpAux_id s.data.length s.data le_rfl hfree]
  · intro a v b h1 h2 h3
    unfold Interpolate
    have h := interpAux_splice a h1 v b h2 h3
    show (⟨interpAux (a ++ '\x7b' :: '\x7b' :: (v ++ '\x7d' :: '\x7d' :: b))⟩ : String) = _
    rw [h]
    apply congrArg String.mk
    show a ++ ((spliceFor (trimSpace ⟨v⟩)).data ++ interpAux b)
      = (⟨a⟩ ++ "\" .. tostring(" ++ trimSpace ⟨v⟩ ++ ") .. \"" ++ (⟨interpAux b⟩ : String)).data
    simp [String.data_append, spliceFor]

/-- C7 witness: a plain string passes through unchanged, and the
placeholder in a concrete text becomes the concatenation splice. -/
theorem c7_interpolation_witness :
    Interpolate "hello" = "hello"
    ∧ Interpolate "Hello, \x7b\x7bname\x7d\x7d!"
        = "Hello, " ++ "\" .. tostring(" ++ trimSpace "name" ++ ") .. \"" ++ Interpolate "!" := by
  constructor
  · apply (c7_interpolation "hello").1
    rintro ⟨a, v, b, heq, -, -⟩
    have hmem : '\x7b' ∈ "hello".data := by
      rw [heq]
      simp
    exact absurd hmem (by decide)
  · have h := (c7_interpolation "hello").2 "Hello, ".data "name".data "!".data
      (by decide) (by decide) (by decide)
    have heq : (⟨"Hello, ".data ++ '\x7b' :: '\x7b' :: ("name".data ++ '\x7d' :: '\x7d' :: "!".data)⟩ : String)
        = "Hello, \x7b\x7bname\x7d\x7d!" := by decide
    rw [heq] at h
    exact h

/-- The node with every `in` attribute removed, used to state that the
numeric loop form ignores `in`. -/
def removeInAttr (n : Node) : Node :=
  ⟨n.tag, n.attrs.filter (fun a => a.name != "in"), n.content, n.nodes⟩

theorem findAttr_filter (attrs : List Attr) (name : String) (h : name ≠ "in") :
    (attrs.filter (fun a => a.name != "in")).find? (fun a => a.name == name)
      = attrs.find? (fun a => a.name == name) := by
  induction attrs with
  | nil => rfl
  | cons a rest ih =>
    by_cases ha : a.name = "in"
    · have h1 : (a.name != "in") = false := by simp [ha]
      have h2 : (a.name == name) = false := by
        rw [ha]
        simp
        exact fun hh => h hh.symm
      rw [List.filter_cons, h1]
      simp only [if_false, Bool.false_eq_true, ite_false]
      rw [List.find?_cons, h2, ih]
    · have h1 : (a.name != "in") = true := by simp [ha]
      rw [List.filter_cons, h1]
      simp only [if_true]
      rw [List.find?_cons, List.find?_cons]
      by_cases hn : (a.name == name) = true
      · rw [hn]
      · rw [Bool.not_eq_true] at hn
        rw [hn, ih]

theorem GetAttr_removeIn (n : Node) (name : String) (h : name ≠ "in") :
    GetAttr (removeInAttr n) name = GetAttr n name := by
  unfold GetAttr removeInAttr
  simp only
  rw [findAttr_filter n.attrs name h]

theorem GetAttrWithDefault_removeIn (n : Node) (name d : String) (h : name ≠ "in") :
    GetAttrWithDefault (removeInAttr n) name d = GetAttrWithDefault n name d := by
  unfold GetAttrWithDefault
  rw [GetAttr_removeIn n name h]

/-- On success the block child loop's output starts with its
accumulator. -/
theorem compileList_out_leads (ns : List Node) : ∀ (i : Nat) (acc : String),
    (compileList i ns acc).err = none → ∃ tail, (compileList i ns acc).out = acc ++ tail := by
  induction ns with
  | nil =>
    intro i acc _
    refine ⟨"", ?_⟩
    rw [compileList_nil]
    apply String.ext
    simp [String.data_append]
  | cons c rest ih =>
    intro i acc hok
    rw [compileList_cons] at hok ⊢
    rcases h1 : (compileNode i c).err with _ | e
    · simp only [h1] at hok ⊢
      obtain ⟨t, ht⟩ := ih _ _ hok
      by_cases ho : (compileNode i c).out = ""
      · refine ⟨t, ?_⟩
        rw [ht, if_neg (by simp [ho])]
      · refine ⟨(compileNode i c).out ++ "\n" ++ t, ?_⟩
        rw [ht, if_pos ho]
        apply String.ext
        simp [String.data_append]
    · simp only [h1] at hok
      simp at hok

/-- C8: in the `for` handler the numeric form takes precedence: whenever
both `from` and `to` are non-empty the handler's result is unchanged by
deleting every `in` attribute (so `in` is ignored), and the emitted
header is the numeric loop header (without `step` when it is `1`, with
it otherwise); only when `from` or `to` is empty is `in` consulted, and
its absence is then the missing-range error. -/
theorem c8_numeric_precedence (i : Nat) (n : Node) :
    (GetAttr n "from" ≠ "" → GetAttr n "to" ≠ "" →
      forHandler i n = forHandler i (removeInAttr n))
    ∧ (GetAttr n "from" ≠ "" → GetAttr n "to" ≠ "" → GetAttr n "var" ≠ "" →
        IsValidIdentifier (GetAttr n "var") = true → (forHandler i n).err = none →
        GetAttrWithDefault n "step" "1" = "1" →
        ∃ tail, (forHandler i n).out
          = (getIndent i ++ "for " ++ GetAttr n "var" ++ " = " ++ GetAttr n "from"
              ++ ", " ++ GetAttr n "to" ++ " do\n") ++ tail)
    ∧ (GetAttr n "from" ≠ "" → GetAttr n "to" ≠ "" → GetAttr n "var" ≠ "" →
        IsValidIdentifier (GetAttr n "var") = true → (forHandler i n).err = none →
        GetAttrWithDefault n "step" "1" ≠ "1" →
        ∃ tail, (forHandler i n).out
          = (getIndent i ++ "for " ++ GetAttr n "var" ++ " = " ++ GetAttr n "from"
              ++ ", " ++ GetAttr n "to" ++ ", " ++ GetAttrWithDefault n "step" "1" ++ " do\n") ++ tail)
    ∧ ((GetAttr n "from" = "" ∨ GetAttr n "to" = "") → GetAttr n "in" = "" →
        GetAttr n "var" ≠ "" → IsValidIdentifier (GetAttr n "var") = true →
        forHandler i n
          = ⟨"", some "for command requires either \x27from\x27/\x27to\x27 or \x27in\x27 attributes", i⟩) := by
  refine ⟨?_, ?_, ?_, ?_⟩
  · intro h1 h2
    unfold forHandler
    dsimp only
    rw [GetAttr_removeIn n "var" (by decide), GetAttr_removeIn n "from" (by decide),
      GetAttr_removeIn n "to" (by decide), GetAttrWithDefault_removeIn n "step" "1" (by decide)]
    rw [if_pos (And.intro h1 h2), if_pos (And.intro h1 h2)]
    rfl
  · intro h1 h2 h3 h4 hok hst
    unfold forHandler at hok ⊢
    dsimp only at hok ⊢
    rw [if_neg h3, if_neg (by simp [h4]), if_pos (And.intro h1 h2), if_neg (by simp [hst])] at hok ⊢
    rcases herr : (compileList (i + 1) n.nodes
        (getIndent i ++ "for " ++ GetAttr n "var" ++ " = " ++ GetAttr n "from"
          ++ ", " ++ GetAttr n "to" ++ " do\n")).err with _ | e
    · obtain ⟨t, ht⟩ := compileList_out_leads n.nodes (i + 1) _ herr
      simp only [herr]
      refine ⟨t ++ getIndent ((compileList (i + 1) n.nodes
        (getIndent i ++ "for " ++ GetAttr n "var" ++ " = " ++ GetAttr n "from"
          ++ ", " ++ GetAttr n "to" ++ " do\n")).ind - 1) ++ "end", ?_⟩
      rw [ht]
      apply String.ext
      simp [String.data_append]
    · simp only [herr] at hok
      simp at hok
  · intro h1 h2 h3 h4 hok hst
    unfold forHandler at hok ⊢
    dsimp only at hok ⊢
    rw [if_neg h3, if_neg (by simp [h4]), if_pos (And.intro h1 h2), if_pos hst] at hok ⊢
    rcases herr : (compileList (i + 1) n.nodes
        (getIndent i ++ "for " ++ GetAttr n "var" ++ " = " ++ GetAttr n "from"
          ++ ", " ++ GetAttr n "to" ++ ", " ++ GetAttrWithDefault n "step" "1" ++ " do\n")).err with _ | e
    · obtain ⟨t, ht⟩ := compileList_out_leads n.nodes (i + 1) _ herr
      simp only [herr]
      refine ⟨t ++ getIndent ((compileList (i + 1) n.nodes
        (getIndent i ++ "for " ++ GetAttr n "var" ++ " = " ++ GetAttr n "from"
          ++ ", " ++ GetAttr n "to" ++ ", " ++ GetAttrWithDefault n "step" "1" ++ " do\n")).ind - 1) ++ "end", ?_⟩
      rw [ht]
      apply String.ext
      simp [String.data_append]
    · simp only [herr] at hok
      simp at hok
  · intro h12 h2 h3 h4
    unfold forHandler
    dsimp only
    rw [if_neg h3, if_neg (by simp [h4]),
      if_neg (by rcases h12 with h | h <;> simp [h]), if_pos h2]

/-- C8 witness: with both bounds and an `in` attribute present the
result ignores `in`; a numeric node emits the numeric header; a node
with only `var` fails with the missing-range error. -/
theorem c8_numeric_precedence_witness :
    forHandler 0 ⟨"for", [⟨"var", "i"⟩, ⟨"from", "1"⟩, ⟨"to", "3"⟩, ⟨"in", "pairs(t)"⟩], "", []⟩
      = forHandler 0 (removeInAttr ⟨"for", [⟨"var", "i"⟩, ⟨"from", "1"⟩, ⟨"to", "3"⟩, ⟨"in", "pairs(t)"⟩], "", []⟩)
    ∧ (∃ tail, (forHandler 0 ⟨"for", [⟨"var", "i"⟩, ⟨"from", "1"⟩, ⟨"to", "3"⟩], "", []⟩).out
        = (getIndent 0 ++ "for " ++ GetAttr ⟨"for", [⟨"var", "i"⟩, ⟨"from", "1"⟩, ⟨"to", "3"⟩], "", []⟩ "var"
            ++ " = " ++ GetAttr ⟨"for", [⟨"var", "i"⟩, ⟨"from", "1"⟩, ⟨"to", "3"⟩], "", []⟩ "from"
            ++ ", " ++ GetAttr ⟨"for", [⟨"var", "i"⟩, ⟨"from", "1"⟩, ⟨"to", "3"⟩], "", []⟩ "to" ++ " do\n") ++ tail)
    ∧ forHandler 0 ⟨"for", [⟨"var", "i"⟩], "", []⟩
        = ⟨"", some "for command requires either \x27from\x27/\x27to\x27 or \x27in\x27 attributes", 0⟩ := by
  refine ⟨?_, ?_, ?_⟩
  · exact (c8_numeric_precedence 0 _).1 (by decide) (by decide)
  · refine (c8_numeric_precedence 0 _).2.1 (by decide) (by decide) (by decide) (by decide) ?_ (by decide)
    simp [forHandler, compileList, GetAttr, GetAttrWithDefault, List.find?,
      IsValidIdentifier, isLetterOrUnderscore, isIdentChar, luauKeywords, getIndent, strRepeat]
  · exact (c8_numeric_precedence 0 _).2.2.2 (Or.inl (by decide)) (by decide) (by decide) (by decide)

theorem strFoldl_append (l : List String) : ∀ a : String,
    l.foldl (fun r s => r ++ s) a = a ++ l.foldl (fun r s => r ++ s) "" := by
  induction l with
  | nil =>
    intro a
    apply String.ext
    simp [String.data_append]
  | cons x xs ih =>
    intro a
    rw [List.foldl_cons, List.foldl_cons, ih (a ++ x), ih ("" ++ x)]
    apply String.ext
    simp [String.data_append]

theorem strJoin_cons (s : String) (l : List String) :
    String.join (s :: l) = s ++ String.join l := by
  show (s :: l).foldl (fun r s => r ++ s) "" = s ++ l.foldl (fun r s => r ++ s) ""
  rw [List.foldl_cons, strFoldl_append]
  apply String.ext
  simp [String.data_append]

/-- The entry loop of the `table` handler produces exactly the
concatenation of the per-entry lines, appended to the accumulator. -/
theorem tableEntriesAcc_join (ind : Nat) (ns : List Node) : ∀ acc : String,
    tableEntriesAcc ind ns acc = acc ++ String.join (ns.map (tableEntryLine ind)) := by
  induction ns with
  | nil =>
    intro acc
    apply String.ext
    simp [tableEntriesAcc, String.join, String.data_append]
  | cons c rest ih =>
    intro acc
    show tableEntriesAcc ind rest (acc ++ tableEntryLine ind c) = _
    rw [ih (acc ++ tableEntryLine ind c), List.map_cons, strJoin_cons]
    apply String.ext
    simp [String.data_append]

/-- C9: the `table` handler silently skips incomplete entries: a child
that is not an `entry`, has an empty `key`, or whitespace-only content
contributes nothing and raises no error; entries with a non-empty key
and non-empty trimmed content each contribute exactly one field line,
and the handler's output is the header, the concatenated field lines of
the children in order, and the closing brace. -/
theorem c9_table_skips (i : Nat) (n : Node) :
    (GetAttr n "var" = "" →
      tableHandler i n
        = ⟨"\x7b\n" ++ String.join (n.nodes.map (tableEntryLine (i + 1))) ++ getIndent i ++ "\x7d",
            none, i⟩)
    ∧ (GetAttr n "var" ≠ "" → IsValidIdentifier (GetAttr n "var") = true →
      tableHandler i n
        = ⟨getIndent i ++ (if GetBoolAttr n "local" then "local " else "") ++ GetAttr n "var" ++ " = \x7b\n"
            ++ String.join (n.nodes.map (tableEntryLine (i + 1))) ++ getIndent i ++ "\x7d",
            none, i⟩)
    ∧ (∀ (ind : Nat) (c : Node), (c.tag ≠ "entry" ∨ GetAttr c "key" = "" ∨ trimSpace c.content = "") →
        tableEntryLine ind c = "")
    ∧ (∀ (ind : Nat) (c : Node), c.tag = "entry" → GetAttr c "key" ≠ "" → trimSpace c.content ≠ "" →
        tableEntryLine ind c ≠ "") := by
  refine ⟨?_, ?_, ?_, ?_⟩
  · intro h
    unfold tableHandler
    dsimp only
    rw [if_neg (by simp [h]), tableEntriesAcc_join]
  · intro h1 h2
    unfold tableHandler
    dsimp only
    rw [if_pos h1, if_neg (by simp [h2]), tableEntriesAcc_join]
  · intro ind c h
    unfold tableEntryLine
    by_cases ht : c.tag = "entry"
    · rw [if_pos ht]
      dsimp only
      rcases h with h | h | h
      · exact absurd ht h
      · rw [if_neg (by simp [h])]
      · rw [if_neg (by simp [h])]
    · rw [if_neg ht]
  · intro ind c h1 h2 h3
    unfold tableEntryLine
    rw [if_pos h1]
    dsimp only
    rw [if_pos (And.intro h2 h3)]
    by_cases hk : IsValidIdentifier (GetAttr c "key") = true
    · rw [if_pos hk]
      intro heq
      have := congrArg String.data heq
      simp [String.data_append] at this
    · rw [if_neg hk]
      intro heq
      have := congrArg String.data heq
      simp [String.data_append] at this

/-- C9 witness: a table with one complete entry, one entry with an empty
key and one with whitespace-only content produces only the complete
entry's field; the incomplete entries' lines are empty without error,
and the complete one's line is non-empty. -/
theorem c9_table_skips_witness :
    tableHandler 0 ⟨"table", [⟨"var", "config"⟩, ⟨"local", "true"⟩], "",
        [⟨"entry", [⟨"key", "name"⟩], "\"MyApp\"", []⟩,
         ⟨"entry", [⟨"key", ""⟩], "1", []⟩,
         ⟨"entry", [⟨"key", "debug"⟩], "  ", []⟩]⟩
      = ⟨getIndent 0
          ++ (if GetBoolAttr ⟨"table", [⟨"var", "config"⟩, ⟨"local", "true"⟩], "",
                [⟨"entry", [⟨"key", "name"⟩], "\"MyApp\"", []⟩,
                 ⟨"entry", [⟨"key", ""⟩], "1", []⟩,
                 ⟨"entry", [⟨"key", "debug"⟩], "  ", []⟩]⟩ "local" then "local " else "")
          ++ GetAttr ⟨"table", [⟨"var", "config"⟩, ⟨"local", "true"⟩], "",
                [⟨"entry", [⟨"key", "name"⟩], "\"MyApp\"", []⟩,
                 ⟨"entry", [⟨"key", ""⟩], "1", []⟩,
                 ⟨"entry", [⟨"key", "debug"⟩], "  ", []⟩]⟩ "var"
          ++ " = \x7b\n"
          ++ String.join ([⟨"entry", [⟨"key", "name"⟩], "\"MyApp\"", []⟩,
               (⟨"entry", [⟨"key", ""⟩], "1", []⟩ : Node),
               ⟨"entry", [⟨"key", "debug"⟩], "  ", []⟩].map (tableEntryLine 1))
          ++ getIndent 0 ++ "\x7d", none, 0⟩
    ∧ tableEntryLine 1 ⟨"entry", [⟨"key", ""⟩], "1", []⟩ = ""
    ∧ tableEntryLine 1 ⟨"entry", [⟨"key", "debug"⟩], "  ", []⟩ = ""
    ∧ tableEntryLine 1 ⟨"entry", [⟨"key", "name"⟩], "\"MyApp\"", []⟩ ≠ "" := by
  refine ⟨?_, ?_, ?_, ?_⟩
  · exact (c9_table_skips 0 _).2.1 (by decide) (by decide)
  · exact (c9_table_skips 0 ⟨"", [], "", []⟩).2.2.1 1 _ (Or.inr (Or.inl (by decide)))
  · exact (c9_table_skips 0 ⟨"", [], "", []⟩).2.2.1 1 _ (Or.inr (Or.inr (by decide)))
  · exact (c9_table_skips 0 ⟨"", [], "", []⟩).2.2.2 1 _ (by decide) (by decide) (by decide)

end Lunaria
